import Mathlib

/-! The yig metadata engine: transactional object and multipart lifecycle.

A shallow embedding of `src/meta/object.go`, `src/meta/multipart.go`,
`src/meta/qos.go`, `src/meta/client/tikvclient/client.go` and the bucket-name
check of `src/api/utils.go`.  The `Client` capability (the pluggable backend) is a
record of state-passing functions over an arbitrary backend state `σ`; every
call that `Meta` issues on it is appended, with the error it returned, to a
trace, so that "which backend calls were issued, in which order, with which
arguments" is a statement about a list.
-/

namespace Yig

/-! ## Go scalars -/

/-- Go `error` value other than `nil`; a nil `error` is `none : Option GoError`. -/
structure GoError where
  msg : String
  deriving DecidableEq, Repr

/-- Transaction handle returned by `Client.NewTrans` (Go `Tx`, an interface value). -/
abbrev Tx := Nat

/-- Two's-complement wrap of an integer into the `int64` range. -/
def wrapInt64 (x : Int) : Int := (x + 2 ^ 63) % 2 ^ 64 - 2 ^ 63

/-- Go unary minus on `int64`. -/
def neg64 (x : Int) : Int := wrapInt64 (-x)

/-- Go `+` on `int64`. -/
def add64 (x y : Int) : Int := wrapInt64 (x + y)

/-- Go binary `-` on `int64`. -/
def sub64 (x y : Int) : Int := wrapInt64 (x - y)

/-- Membership in the `int64` range. -/
def IsInt64 (x : Int) : Prop := -(2 ^ 63) ≤ x ∧ x < 2 ^ 63

instance (x : Int) : Decidable (IsInt64 x) :=
  inferInstanceAs (Decidable (-(2 ^ 63) ≤ x ∧ x < 2 ^ 63))

/-! ## Data model -/

/-- Modelled from the spec: the `Part` type of `meta/types` is not among the
sources; a part has a part number, a size, a checksum and a location. -/
structure Part where
  PartNumber : Int
  Size : Int
  Etag : String
  ObjectId : String
  deriving DecidableEq, Repr

/-- Modelled from the spec: the `Object` type of `meta/types` is not among the
sources; bucket name, key, version, size, checksum, delete-marker flag and the
part map, which is `none` for a Go `nil` map. -/
structure Object where
  BucketName : String
  Name : String
  VersionId : String
  Size : Int
  Etag : String
  DeleteMarker : Bool
  Parts : Option (List (Int × Part))
  deriving DecidableEq, Repr

/-- Modelled from the spec: the `Multipart` type of `meta/types` is not among
the sources; bucket name, key, upload id and the map from part number to part,
held as an association list. -/
structure Multipart where
  BucketName : String
  ObjectName : String
  UploadId : String
  Parts : List (Int × Part)
  deriving DecidableEq, Repr

/-- Go map index `multipart.Parts[n]` with the comma-ok form. -/
def Multipart.lookupPart (m : Multipart) (n : Int) : Option Part :=
  (m.Parts.find? (fun kv => kv.1 == n)).map Prod.snd

/-! ## Backend calls and their trace -/

/-- One call on the `Client` capability with the arguments it was given.
`NewTrans` carries the handle the backend returned. -/
inductive Call where
  | NewTrans (tx : Tx)
  | CommitTrans (tx : Tx)
  | AbortTrans (tx : Tx)
  | DeleteObject (object : Object) (tx : Tx)
  | DeleteVersionedObject (object : Object) (tx : Tx)
  | PutObjectToGarbageCollection (object : Object) (tx : Tx)
  | UpdateUsage (bucketName : String) (size : Int) (tx : Tx)
  | AddDeleteMarker (marker : Object) (version : String) (tx : Tx)
  | DeleteMultipart (multipart : Multipart) (tx : Tx)
  | PutObjectPart (multipart : Multipart) (part : Part) (tx : Tx)
  | RenameObjectPart (object : Object) (sourceObject : String) (tx : Tx)
  | RenameObject (object : Object) (sourceObject : String) (tx : Tx)
  | PutObject (object : Object) (multipart : Option Multipart) (updateUsage : Bool)
  | UpdateObject (object : Object) (multipart : Option Multipart) (updateUsage : Bool)
  | PutObjectWithoutMultiPart (object : Object)
  | UpdateObjectWithoutMultiPart (object : Object)
  | PutVersionedObject (object : Object) (multipart : Option Multipart) (updateUsage : Bool)
  deriving DecidableEq, Repr

/-- A call together with the error it returned (`none` for Go `nil`). -/
structure Event where
  call : Call
  err : Option GoError
  deriving DecidableEq, Repr

/-- The `Client` capability as `Meta` consumes it.  Each method takes the
backend state and returns its Go results with the next state.  Records are
handed by value: a backend reads, and does not write through, the `*Object`,
`*Multipart` and `*Part` it is given. -/
structure Client (σ : Type) where
  NewTrans : σ → (Tx × Option GoError) × σ
  CommitTrans : Tx → σ → Option GoError × σ
  AbortTrans : Tx → σ → Option GoError × σ
  DeleteObject : Object → Tx → σ → Option GoError × σ
  DeleteVersionedObject : Object → Tx → σ → Option GoError × σ
  PutObjectToGarbageCollection : Object → Tx → σ → Option GoError × σ
  UpdateUsage : String → Int → Tx → σ → Option GoError × σ
  AddDeleteMarker : Object → String → Tx → σ → Option GoError × σ
  DeleteMultipart : Multipart → Tx → σ → Option GoError × σ
  PutObjectPart : Multipart → Part → Tx → σ → Option GoError × σ
  RenameObjectPart : Object → String → Tx → σ → Option GoError × σ
  RenameObject : Object → String → Tx → σ → Option GoError × σ
  PutObject : Object → Option Multipart → Bool → σ → Option GoError × σ
  UpdateObject : Object → Option Multipart → Bool → σ → Option GoError × σ
  PutObjectWithoutMultiPart : Object → σ → Option GoError × σ
  UpdateObjectWithoutMultiPart : Object → σ → Option GoError × σ
  PutVersionedObject : Object → Option Multipart → Bool → σ → Option GoError × σ

/-- Backend state together with the calls issued on it so far, oldest first. -/
structure World (σ : Type) where
  backend : σ
  trace : List Event

/-- Computations that call the backend. -/
abbrev Run (σ : Type) (α : Type) := World σ → α × World σ

/-- Issue one error-returning backend call and record it. -/
def invoke {σ : Type} (call : Call) (f : σ → Option GoError × σ) : Run σ (Option GoError) :=
  fun w => ((f w.backend).1, ⟨(f w.backend).2, w.trace ++ [⟨call, (f w.backend).1⟩]⟩)

/-- Issue `Client.NewTrans` and record it with the handle it returned. -/
def newTrans {σ : Type} (c : Client σ) : Run σ (Tx × Option GoError) :=
  fun w => ((c.NewTrans w.backend).1,
    ⟨(c.NewTrans w.backend).2,
     w.trace ++ [⟨Call.NewTrans (c.NewTrans w.backend).1.1, (c.NewTrans w.backend).1.2⟩]⟩)

/-- The deferred closure of `DeleteObject`, `DeleteVersionedObject` and
`DeleteSuspendedObject`: commit when `err` is nil, then abort when `err`
(possibly the commit error) is not nil.  Returns the final `err`. -/
def deferCommitOrAbort {σ : Type} (c : Client σ) (tx : Tx) (err : Option GoError) :
    Run σ (Option GoError) := fun w =>
  match err with
  | none =>
    match invoke (Call.CommitTrans tx) (c.CommitTrans tx) w with
    | (none, w1) => (none, w1)
    | (some e, w1) => (some e, (invoke (Call.AbortTrans tx) (c.AbortTrans tx) w1).2)
  | some e => (some e, (invoke (Call.AbortTrans tx) (c.AbortTrans tx) w).2)

/-- The deferred closure of the multipart operations: abort when `err` is not nil. -/
def deferAbort {σ : Type} (c : Client σ) (tx : Tx) (err : Option GoError) :
    Run σ (Option GoError) := fun w =>
  match err with
  | none => (none, w)
  | some e => (some e, (invoke (Call.AbortTrans tx) (c.AbortTrans tx) w).2)

/-! ## `meta/object.go` -/

/-- Body of `Meta.DeleteObject` between the `defer` and the return: the value
assigned to the named result `err`. -/
def DeleteObject.body {σ : Type} (c : Client σ) (object : Object) (tx : Tx) :
    Run σ (Option GoError) := fun w =>
  match invoke (Call.DeleteObject object tx) (c.DeleteObject object tx) w with
  | (some e, w1) => (some e, w1)
  | (none, w1) =>
    match invoke (Call.PutObjectToGarbageCollection object tx)
        (c.PutObjectToGarbageCollection object tx) w1 with
    | (some e, w2) => (some e, w2)
    | (none, w2) =>
      invoke (Call.UpdateUsage object.BucketName (neg64 object.Size) tx)
        (c.UpdateUsage object.BucketName (neg64 object.Size) tx) w2

/-- Go `func (m *Meta) DeleteObject(object *Object) (err error)`. -/
def DeleteObject {σ : Type} (c : Client σ) (object : Object) : Run σ (Option GoError) := fun w =>
  match newTrans c w with
  | ((_, some e), w1) => (some e, w1)
  | ((tx, none), w1) =>
    match DeleteObject.body c object tx w1 with
    | (err, w2) => deferCommitOrAbort c tx err w2

/-- Go `func (m *Meta) DeleteVersionedObject(object *Object) (err error)`: the
value assigned to the named result `err` by the body. -/
def DeleteVersionedObject.body {σ : Type} (c : Client σ) (object : Object) (tx : Tx) :
    Run σ (Option GoError) := fun w =>
  match invoke (Call.DeleteVersionedObject object tx) (c.DeleteVersionedObject object tx) w with
  | (some e, w1) => (some e, w1)
  | (none, w1) =>
    match invoke (Call.PutObjectToGarbageCollection object tx)
        (c.PutObjectToGarbageCollection object tx) w1 with
    | (some e, w2) => (some e, w2)
    | (none, w2) =>
      invoke (Call.UpdateUsage object.BucketName (neg64 object.Size) tx)
        (c.UpdateUsage object.BucketName (neg64 object.Size) tx) w2

/-- Go `func (m *Meta) DeleteVersionedObject(object *Object) (err error)`. -/
def DeleteVersionedObject {σ : Type} (c : Client σ) (object : Object) :
    Run σ (Option GoError) := fun w =>
  match newTrans c w with
  | ((_, some e), w1) => (some e, w1)
  | ((tx, none), w1) =>
    match DeleteVersionedObject.body c object tx w1 with
    | (err, w2) => deferCommitOrAbort c tx err w2

/-- Body of `Meta.DeleteSuspendedObject`.  The function's result is unnamed, so
the body yields two values: the value handed to `return`, and the local
variable `err` (declared by `tx, err := m.Client.NewTrans()`) as it stands at
that `return`.  Each early `return err` hands over the local `err` itself; the
final `return m.Client.AddDeleteMarker(...)` does not assign to it. -/
def DeleteSuspendedObject.body {σ : Type} (c : Client σ) (NullVersion : String)
    (object : Object) (tx : Tx) : Run σ (Option GoError × Option GoError) := fun w =>
  if !object.DeleteMarker then
    match invoke (Call.DeleteObject object tx) (c.DeleteObject object tx) w with
    | (some e, w1) => ((some e, some e), w1)
    | (none, w1) =>
      match invoke (Call.PutObjectToGarbageCollection object tx)
          (c.PutObjectToGarbageCollection object tx) w1 with
      | (some e, w2) => ((some e, some e), w2)
      | (none, w2) =>
        match invoke (Call.UpdateUsage object.BucketName (neg64 object.Size) tx)
            (c.UpdateUsage object.BucketName (neg64 object.Size) tx) w2 with
        | (some e, w3) => ((some e, some e), w3)
        | (none, w3) =>
          match invoke (Call.AddDeleteMarker object NullVersion tx)
              (c.AddDeleteMarker object NullVersion tx) w3 with
          | (r, w4) => ((r, none), w4)
  else
    match invoke (Call.AddDeleteMarker object NullVersion tx)
        (c.AddDeleteMarker object NullVersion tx) w with
    | (r, w1) => ((r, none), w1)

/-- Go `func (m *Meta) DeleteSuspendedObject(object *Object) error`.  The closure
run by `defer` reads and writes the local `err`; the value returned to the
caller is the one the body handed to `return`.  `NullVersion` is the constant
of `meta/types`, which is not among the sources. -/
def DeleteSuspendedObject {σ : Type} (c : Client σ) (NullVersion : String) (object : Object) :
    Run σ (Option GoError) := fun w =>
  match newTrans c w with
  | ((_, some e), w1) => (some e, w1)
  | ((tx, none), w1) =>
    match DeleteSuspendedObject.body c NullVersion object tx w1 with
    | ((ret, err), w2) => (ret, (deferCommitOrAbort c tx err w2).2)

/-- Modelled from the spec: the versioning mode of a bucket, `Disabled`,
`Suspended` or `Enabled`; the declaration in `meta/types` is not among the
sources.  `Unrecognized` stands for any other value of the Go type. -/
inductive Versioning where
  | VersionDisabled
  | VersionSuspended
  | VersionEnabled
  | Unrecognized (raw : String)
  deriving DecidableEq, Repr

/-- Modelled from the spec: the `Bucket` type of `meta/types` is not among the
sources; only the versioning mode is read here. -/
structure Bucket where
  Name : String
  Versioning : Versioning
  deriving DecidableEq, Repr

/-- Modelled from the spec: the `RequestContext` type of `context` is not among
the sources; `none` is a Go `nil` pointer. -/
structure RequestContext where
  BucketInfo : Option Bucket
  ObjectInfo : Option Object
  deriving DecidableEq, Repr

/-- Modelled from the spec: error `NoSuchBucket` of package `error`. -/
def ErrNoSuchBucket : GoError := ⟨"NoSuchBucket"⟩

/-- Modelled from the spec: error `InvalidVersioning` of package `error`. -/
def ErrInvalidVersioning : GoError := ⟨"InvalidVersioning"⟩

/-- The `VersionDisabled` arm of `Meta.PutObject`, which `VersionSuspended`
falls through to. -/
def PutObject.disabled {σ : Type} (c : Client σ) (reqCtx : RequestContext) (object : Object)
    (multipart : Option Multipart) (updateUsage : Bool) : Run σ (Option GoError) :=
  let needUpdate := reqCtx.ObjectInfo.isSome
  if multipart.isNone && object.Parts.isNone then
    if needUpdate then
      invoke (Call.UpdateObjectWithoutMultiPart object) (c.UpdateObjectWithoutMultiPart object)
    else
      invoke (Call.PutObjectWithoutMultiPart object) (c.PutObjectWithoutMultiPart object)
  else if needUpdate then
    invoke (Call.UpdateObject object multipart updateUsage)
      (c.UpdateObject object multipart updateUsage)
  else
    invoke (Call.PutObject object multipart updateUsage)
      (c.PutObject object multipart updateUsage)

/-- Go `func (m *Meta) PutObject(reqCtx RequestContext, object *Object,
multipart *Multipart, updateUsage bool) error`. -/
def PutObject {σ : Type} (c : Client σ) (reqCtx : RequestContext) (object : Object)
    (multipart : Option Multipart) (updateUsage : Bool) : Run σ (Option GoError) := fun w =>
  match reqCtx.BucketInfo with
  | none => (some ErrNoSuchBucket, w)
  | some bucket =>
    match bucket.Versioning with
    | Versioning.VersionSuspended => PutObject.disabled c reqCtx object multipart updateUsage w
    | Versioning.VersionDisabled => PutObject.disabled c reqCtx object multipart updateUsage w
    | Versioning.VersionEnabled =>
      invoke (Call.PutVersionedObject object multipart updateUsage)
        (c.PutVersionedObject object multipart updateUsage) w
    | Versioning.Unrecognized _ => (some ErrInvalidVersioning, w)

/-! ## `meta/multipart.go` -/

/-- The loop `for _, p := range multipart.Parts { removedSize += p.Size }`,
taking the entries in the order of the association list. -/
def removedSizeOf (parts : List (Int × Part)) : Int :=
  parts.foldl (fun removedSize kv => add64 removedSize kv.2.Size) 0

/-- Body of `Meta.DeleteMultipart`: the value of the named result `err` at the
return. -/
def DeleteMultipart.body {σ : Type} (c : Client σ) (multipart : Multipart) (tx : Tx) :
    Run σ (Option GoError) := fun w =>
  match invoke (Call.DeleteMultipart multipart tx) (c.DeleteMultipart multipart tx) w with
  | (some e, w1) => (some e, w1)
  | (none, w1) =>
    let removedSize := removedSizeOf multipart.Parts
    match invoke (Call.UpdateUsage multipart.BucketName (neg64 removedSize) tx)
        (c.UpdateUsage multipart.BucketName (neg64 removedSize) tx) w1 with
    | (some e, w2) => (some e, w2)
    | (none, w2) => invoke (Call.CommitTrans tx) (c.CommitTrans tx) w2

/-- Go `func (m *Meta) DeleteMultipart(multipart Multipart) (err error)`. -/
def DeleteMultipart {σ : Type} (c : Client σ) (multipart : Multipart) :
    Run σ (Option GoError) := fun w =>
  match newTrans c w with
  | ((_, some e), w1) => (some e, w1)
  | ((tx, none), w1) =>
    match DeleteMultipart.body c multipart tx w1 with
    | (err, w2) => deferAbort c tx err w2

/-- The lines `var removedSize int64 = 0; if part, ok :=
multipart.Parts[part.PartNumber]; ok { removedSize += part.Size }`. -/
def previousSize (multipart : Multipart) (part : Part) : Int :=
  match multipart.lookupPart part.PartNumber with
  | some old => add64 0 old.Size
  | none => 0

/-- Body of `Meta.PutObjectPart`: the value of the named result `err` at the
return. -/
def PutObjectPart.body {σ : Type} (c : Client σ) (multipart : Multipart) (part : Part)
    (tx : Tx) : Run σ (Option GoError) := fun w =>
  match invoke (Call.PutObjectPart multipart part tx) (c.PutObjectPart multipart part tx) w with
  | (some e, w1) => (some e, w1)
  | (none, w1) =>
    let removedSize := previousSize multipart part
    match invoke (Call.UpdateUsage multipart.BucketName (sub64 part.Size removedSize) tx)
        (c.UpdateUsage multipart.BucketName (sub64 part.Size removedSize) tx) w1 with
    | (some e, w2) => (some e, w2)
    | (none, w2) => invoke (Call.CommitTrans tx) (c.CommitTrans tx) w2

/-- Go `func (m *Meta) PutObjectPart(multipart Multipart, part Part) (err error)`. -/
def PutObjectPart {σ : Type} (c : Client σ) (multipart : Multipart) (part : Part) :
    Run σ (Option GoError) := fun w =>
  match newTrans c w with
  | ((_, some e), w1) => (some e, w1)
  | ((tx, none), w1) =>
    match PutObjectPart.body c multipart part tx w1 with
    | (err, w2) => deferAbort c tx err w2

/-- Body of `Meta.RenameObjectPart`: the value of the named result `err` at the
return. -/
def RenameObjectPart.body {σ : Type} (c : Client σ) (object : Object) (sourceObject : String)
    (tx : Tx) : Run σ (Option GoError) := fun w =>
  match invoke (Call.RenameObjectPart object sourceObject tx)
      (c.RenameObjectPart object sourceObject tx) w with
  | (some e, w1) => (some e, w1)
  | (none, w1) =>
    match invoke (Call.RenameObject object sourceObject tx)
        (c.RenameObject object sourceObject tx) w1 with
    | (some e, w2) => (some e, w2)
    | (none, w2) => invoke (Call.CommitTrans tx) (c.CommitTrans tx) w2

/-- Go `func (m *Meta) RenameObjectPart(object *Object, sourceObject string) (err error)`. -/
def RenameObjectPart {σ : Type} (c : Client σ) (object : Object) (sourceObject : String) :
    Run σ (Option GoError) := fun w =>
  match newTrans c w with
  | ((_, some e), w1) => (some e, w1)
  | ((tx, none), w1) =>
    match RenameObjectPart.body c object sourceObject tx w1 with
    | (err, w2) => deferAbort c tx err w2

/-! ## `meta/qos.go` -/

/-- Go constant `defaultReadQps`. -/
def defaultReadQps : Int := 2000

/-- Go constant `defaultWriteQps`. -/
def defaultWriteQps : Int := 1000

/-- Go constant `defaultBandwidthKBps`, 100 MBps. -/
def defaultBandwidthKBps : Int := 100 * 1024

/-- Modelled from the spec: the `UserQos` type of `meta/types` is not among the
sources; per-tenant read QPS, write QPS and bandwidth in KB/s. -/
structure UserQos where
  ReadQps : Int
  WriteQps : Int
  Bandwidth : Int
  deriving DecidableEq, Repr

/-- The zero value of `UserQos`, which a Go map yields for an absent key. -/
def UserQos.zero : UserQos := ⟨0, 0, 0⟩

/-- The in-process snapshot of `QosMeta`: the maps `bucketUser` (bucket name to
user id) and `userQosLimit` (user id to limits), as association lists.  A
`nil` map and an empty map read alike, as `[]`. -/
structure QosMeta where
  bucketUser : List (String × String)
  userQosLimit : List (String × UserQos)
  deriving DecidableEq, Repr

/-- The rate handed to the limiter: the value of `redis_rate.PerSecond(rate)`. -/
inductive Limit where
  | PerSecond (rate : Int)
  deriving DecidableEq, Repr

/-- The limiter `rateLimiter` over its own state `ρ`: `Allow(key, limit)` yields
the `Allowed` verdict of its result and an error. -/
structure Limiter (ρ : Type) where
  Allow : String → Limit → ρ → (Bool × Option GoError) × ρ

/-- What one admission check did: its answer, the limiter queries it made in
order, and the limiter state it left. -/
structure QosOutcome (ρ : Type) where
  allow : Bool
  queries : List (String × Limit)
  limiter : ρ

/-- Go `func (m *QosMeta) AllowReadQuery(bucketName string) (allow bool)`. -/
def AllowReadQuery {ρ : Type} (m : QosMeta) (rateLimiter : Limiter ρ) (bucketName : String)
    (r : ρ) : QosOutcome ρ :=
  let userID := (m.bucketUser.lookup bucketName).getD ""
  let qps := ((m.userQosLimit.lookup userID).getD UserQos.zero).ReadQps
  let qps := if qps ≤ 0 then defaultReadQps else qps
  let key := "user_rqps_" ++ userID
  match rateLimiter.Allow key (Limit.PerSecond qps) r with
  | ((_, some _), r1) => ⟨true, [(key, Limit.PerSecond qps)], r1⟩
  | ((allowed, none), r1) => ⟨allowed, [(key, Limit.PerSecond qps)], r1⟩

/-- Go `func (m *QosMeta) AllowWriteQuery(bucketName string) (allow bool)`. -/
def AllowWriteQuery {ρ : Type} (m : QosMeta) (rateLimiter : Limiter ρ) (bucketName : String)
    (r : ρ) : QosOutcome ρ :=
  let userID := (m.bucketUser.lookup bucketName).getD ""
  let qps := ((m.userQosLimit.lookup userID).getD UserQos.zero).WriteQps
  let qps := if qps ≤ 0 then defaultWriteQps else qps
  let key := "user_wqps_" ++ userID
  match rateLimiter.Allow key (Limit.PerSecond qps) r with
  | ((_, some _), r1) => ⟨true, [(key, Limit.PerSecond qps)], r1⟩
  | ((allowed, none), r1) => ⟨allowed, [(key, Limit.PerSecond qps)], r1⟩

/-- The tenant id the snapshot resolves a bucket to; the empty string when the
bucket is unknown. -/
def tenantOf (m : QosMeta) (bucketName : String) : String :=
  (m.bucketUser.lookup bucketName).getD ""

/-- The spec's rate rule: the configured limit when there is one and it is
positive, the default otherwise. -/
def effectiveRate (configured : Option Int) (dflt : Int) : Int :=
  match configured with
  | some q => if 0 < q then q else dflt
  | none => dflt

/-- The answer the spec prescribes for a limiter reply: allow on error (fail
open), the limiter's verdict otherwise. -/
def failOpen (reply : Bool × Option GoError) : Bool :=
  match reply.2 with
  | some _ => true
  | none => reply.1

/-! ## `meta/client/tikvclient/client.go` -/

/-- One call on the transactional TiKV client or on the transaction it opened;
keys and marshalled values are byte strings. -/
inductive KvCall where
  | Begin
  | Set (key : List Nat) (value : List Nat)
  | Delete (key : List Nat)
  | Commit
  | Rollback
  deriving DecidableEq, Repr

/-- A TiKV call together with the error it returned. -/
structure KvEvent where
  call : KvCall
  err : Option GoError
  deriving DecidableEq, Repr

/-- The library client `txnkv.Client` and its transaction, over a store state
`σ`: `Begin`, then `Set`, `Delete`, `Commit` and `Rollback` on the transaction. -/
structure TxnClient (σ : Type) where
  Begin : σ → Option GoError × σ
  Set : List Nat → List Nat → σ → Option GoError × σ
  Delete : List Nat → σ → Option GoError × σ
  Commit : σ → Option GoError × σ
  Rollback : σ → Option GoError × σ

/-- Store state together with the TiKV calls issued so far, oldest first. -/
structure KvWorld (σ : Type) where
  store : σ
  trace : List KvEvent

/-- Issue one TiKV call and record it. -/
def kvInvoke {σ : Type} (call : KvCall) (f : σ → Option GoError × σ) :
    KvWorld σ → Option GoError × KvWorld σ :=
  fun w => ((f w.store).1, ⟨(f w.store).2, w.trace ++ [⟨call, (f w.store).1⟩]⟩)

/-- The deferred closure of `TxPut` and `TxDelete`, run on the variable `err`
that `tx, err := c.txnCli.Begin(...)` declared: commit when it is nil, then
roll back when it (possibly the commit error) is not nil. -/
def kvDefer {σ : Type} (c : TxnClient σ) (err : Option GoError) : KvWorld σ → KvWorld σ :=
  fun w =>
  match err with
  | none =>
    match kvInvoke KvCall.Commit c.Commit w with
    | (none, w1) => w1
    | (some _, w1) => (kvInvoke KvCall.Rollback c.Rollback w1).2
  | some _ => (kvInvoke KvCall.Rollback c.Rollback w).2

/-- The loop of `TxPut` over the key/value pairs of `args`, yielding the value
handed to `return`.  `marshal` is `helper.MsgPackMarshal`, which is not among
the sources.  Inside the loop body `v, err := helper.MsgPackMarshal(val)`
declares a new `err`, which `err = tx.Set(key, v)` then assigns: the `err` of
the function scope is not written. -/
def TxPut.loop {σ V : Type} (c : TxnClient σ) (marshal : V → Except GoError (List Nat)) :
    List (List Nat × V) → KvWorld σ → Option GoError × KvWorld σ
  | [] => fun w => (none, w)
  | (key, val) :: rest => fun w =>
    match marshal val with
    | Except.error e => (some e, w)
    | Except.ok v =>
      match kvInvoke (KvCall.Set key v) (c.Set key v) w with
      | (some e, w1) => (some e, w1)
      | (none, w1) => TxPut.loop c marshal rest w1

/-- Go `func (c *TiKVClient) TxPut(args ...interface{}) error`, on an argument
list of key/value pairs.  The result is unnamed and the function-scope `err`
is nil at every `return` after `Begin` succeeded, so the deferred closure runs
on a nil `err` and cannot change the value returned. -/
def TxPut {σ V : Type} (c : TxnClient σ) (marshal : V → Except GoError (List Nat))
    (args : List (List Nat × V)) : KvWorld σ → Option GoError × KvWorld σ := fun w =>
  match kvInvoke KvCall.Begin c.Begin w with
  | (some e, w1) => (some e, w1)
  | (none, w1) =>
    match TxPut.loop c marshal args w1 with
    | (ret, w2) => (ret, kvDefer c none w2)

/-- The loop of `TxDelete` over `keys`, yielding the value handed to `return`;
`err := tx.Delete(key)` declares a new `err` inside the loop body. -/
def TxDelete.loop {σ : Type} (c : TxnClient σ) :
    List (List Nat) → KvWorld σ → Option GoError × KvWorld σ
  | [] => fun w => (none, w)
  | key :: rest => fun w =>
    match kvInvoke (KvCall.Delete key) (c.Delete key) w with
    | (some e, w1) => (some e, w1)
    | (none, w1) => TxDelete.loop c rest w1

/-- Go `func (c *TiKVClient) TxDelete(keys ...[]byte) error`. -/
def TxDelete {σ : Type} (c : TxnClient σ) (keys : List (List Nat)) :
    KvWorld σ → Option GoError × KvWorld σ := fun w =>
  match kvInvoke KvCall.Begin c.Begin w with
  | (some e, w1) => (some e, w1)
  | (none, w1) =>
    match TxDelete.loop c keys w1 with
    | (ret, w2) => (ret, kvDefer c none w2)

/-- Result and trace of a TiKV operation started on store state `s` with an
empty trace. -/
def kvExec {σ : Type} (op : KvWorld σ → Option GoError × KvWorld σ) (s : σ) :
    Option GoError × List KvEvent :=
  ((op ⟨s, []⟩).1, (op ⟨s, []⟩).2.trace)

/-- A TiKV client whose state counts the calls served so far and whose `k`-th
call returns the `k`-th entry of `script` (nil once the script is exhausted). -/
def scriptTxn (script : List (Option GoError)) : TxnClient Nat where
  Begin := fun s => (script.getD s none, s + 1)
  Set := fun _ _ s => (script.getD s none, s + 1)
  Delete := fun _ s => (script.getD s none, s + 1)
  Commit := fun s => (script.getD s none, s + 1)
  Rollback := fun s => (script.getD s none, s + 1)

/-- A marshaller for the examples: a number is packed into one byte. -/
def packByte (v : Nat) : Except GoError (List Nat) := Except.ok [v % 256]

/-- A TiKV error used in the examples. -/
def setFailed : GoError := ⟨"tx.Set failed"⟩

/-- A TiKV error used in the examples. -/
def deleteFailed : GoError := ⟨"tx.Delete failed"⟩

/-- A TiKV error used in the examples. -/
def kvCommitFailed : GoError := ⟨"tx.Commit failed"⟩

/-! ## Go strings -/

/-- Go `[]byte(string(r))` for a valid rune `r`: its UTF-8 encoding, as bytes. -/
def encodeRune (c : Char) : List Nat :=
  if c.toNat < 0x80 then [c.toNat]
  else if c.toNat < 0x800 then [0xC0 + c.toNat / 64, 0x80 + c.toNat % 64]
  else if c.toNat < 0x10000 then
    [0xE0 + c.toNat / 4096, 0x80 + c.toNat / 64 % 64, 0x80 + c.toNat % 64]
  else
    [0xF0 + c.toNat / 262144, 0x80 + c.toNat / 4096 % 64, 0x80 + c.toNat / 64 % 64,
      0x80 + c.toNat % 64]

/-- The bytes of a Go string that is valid UTF-8, given by its runes. -/
def goBytes (s : String) : List Nat := s.data.flatMap encodeRune

/-- Go `len(s)`: the number of bytes of the string. -/
def goLen (s : String) : Nat := (goBytes s).length

/-- Go conversion `string(n)` of an integer: the string of the one rune `n`,
and of U+FFFD when `n` is not a valid code point. -/
def stringOfInt (n : Nat) : String :=
  String.singleton (if n.isValidChar then Char.ofNat n else Char.ofNat 0xFFFD)

/-- Go `bytes.Compare(a, b) < 0`: bytewise lexicographic order. -/
def bytesLess : List Nat → List Nat → Bool
  | [], [] => false
  | [], _ :: _ => true
  | _ :: _, [] => false
  | x :: xs, y :: ys => x < y || (x == y && bytesLess xs ys)

/-- Go `unicode.IsSpace`, the test `strings.TrimSpace` applies to each rune. -/
def isSpace (c : Char) : Bool :=
  (0x09 ≤ c.toNat && c.toNat ≤ 0x0D) || c.toNat == 0x20 || c.toNat == 0x85 ||
    c.toNat == 0xA0 || c.toNat == 0x1680 || (0x2000 ≤ c.toNat && c.toNat ≤ 0x200A) ||
    c.toNat == 0x2028 || c.toNat == 0x2029 || c.toNat == 0x202F || c.toNat == 0x205F ||
    c.toNat == 0x3000

/-- Go `strings.Contains(s, "..")`, on the runes of `s`. -/
def containsDotDot : List Char → Bool
  | c1 :: c2 :: t => (c1 == '.' && c2 == '.') || containsDotDot (c2 :: t)
  | _ => false

/-! ## Regular expressions of `api/utils.go` -/

/-- The fragment of Go `regexp` syntax that the three patterns of `api/utils.go`
use: a character class, concatenation, and repetition `a{min,min+extra}`
(`a{min,}` when `extra` is `none`, so `a+` is `rep a 1 none`). -/
inductive Regex where
  | cls (accept : Char → Bool)
  | seq (a b : Regex)
  | rep (a : Regex) (min : Nat) (extra : Option Nat)

/-- All remainders left by applying `step` exactly `n` times in a row. -/
def iterate (step : List Char → List (List Char)) : Nat → List Char → List (List Char)
  | 0, s => [s]
  | n + 1, s => (step s).flatMap (iterate step n)

/-- All remainders left by applying `step` at most `n` times in a row. -/
def upTo (step : List Char → List (List Char)) : Nat → List Char → List (List Char)
  | 0, s => [s]
  | n + 1, s => s :: (step s).flatMap (upTo step n)

/-- The remainders of `s` after each prefix of `s` that the expression matches.
An unbounded repetition is tried at most as often as runes remain. -/
def Regex.rems : Regex → List Char → List (List Char)
  | Regex.cls accept, s =>
    match s with
    | c :: t => if accept c then [t] else []
    | [] => []
  | Regex.seq a b, s => (a.rems s).flatMap b.rems
  | Regex.rep a min (some extra), s => (iterate a.rems min s).flatMap (upTo a.rems extra)
  | Regex.rep a min none, s => (iterate a.rems min s).flatMap (fun t => upTo a.rems t.length t)

/-- Go `re.MatchString(s)` for a pattern of the form `^...$`: some way of
matching consumes the whole string. -/
def Regex.MatchString (r : Regex) (s : String) : Bool :=
  (r.rems s.data).any List.isEmpty

/-- The class `[lo-hi]`. -/
def inRange (lo hi c : Char) : Bool := lo.toNat ≤ c.toNat && c.toNat ≤ hi.toNat

/-- The class `[A-Za-z0-9]`: ASCII letters and digits. -/
def isAlnum (c : Char) : Bool := inRange 'A' 'Z' c || inRange 'a' 'z' c || inRange '0' '9' c

/-- The class `[A-Za-z0-9\.\-\_\:]`. -/
def isBucketChar (c : Char) : Bool :=
  isAlnum c || c == '.' || c == '-' || c == '_' || c == ':'

/-- The class `[a-z0-9]`. -/
def isLowerAlnum (c : Char) : Bool := inRange 'a' 'z' c || inRange '0' '9' c

/-- The class `[a-z0-9\.\-]`. -/
def isStrictBucketChar (c : Char) : Bool := isLowerAlnum c || c == '.' || c == '-'

/-- The class `\d`, which in Go is `[0-9]`. -/
def isDigit (c : Char) : Bool := inRange '0' '9' c

/-- The class of the escaped dot `\.`. -/
def isDot (c : Char) : Bool := c == '.'

/-- Go `validBucketName`, the pattern `^[A-Za-z0-9][A-Za-z0-9\.\-\_\:]{1,61}[A-Za-z0-9]$`. -/
def validBucketName : Regex :=
  Regex.seq (Regex.cls isAlnum)
    (Regex.seq (Regex.rep (Regex.cls isBucketChar) 1 (some 60)) (Regex.cls isAlnum))

/-- Go `validBucketNameStrict`, the pattern `^[a-z0-9][a-z0-9\.\-]{1,61}[a-z0-9]$`. -/
def validBucketNameStrict : Regex :=
  Regex.seq (Regex.cls isLowerAlnum)
    (Regex.seq (Regex.rep (Regex.cls isStrictBucketChar) 1 (some 60)) (Regex.cls isLowerAlnum))

/-- Go `ipAddress`, the pattern `^(\d+\.){3}\d+$`. -/
def ipAddress : Regex :=
  Regex.seq
    (Regex.rep (Regex.seq (Regex.rep (Regex.cls isDigit) 1 none) (Regex.cls isDot)) 3 (some 0))
    (Regex.rep (Regex.cls isDigit) 1 none)

/-! ## `api/utils.go` -/

/-- Go `func checkBucketNameCommon(bucketName string, strict bool) (err error)`.
The first test, `strings.TrimSpace(bucketName) == ""`, holds exactly when
every rune of the name is white space. -/
def checkBucketNameCommon (bucketName : String) (strict : Bool) : Option GoError :=
  if bucketName.data.all isSpace then some ⟨"Bucket name cannot be empty"⟩
  else if goLen bucketName < 3 then some ⟨"Bucket name cannot be smaller than 3 characters"⟩
  else if goLen bucketName > 63 then some ⟨"Bucket name cannot be greater than 63 characters"⟩
  else if ipAddress.MatchString bucketName then some ⟨"Bucket name cannot be an ip address"⟩
  else if containsDotDot bucketName.data then some ⟨"Bucket name contains invalid characters"⟩
  else if strict then
    (if !validBucketNameStrict.MatchString bucketName then
      some ⟨"Bucket name contains invalid characters"⟩ else none)
  else if !validBucketName.MatchString bucketName then
    some ⟨"Bucket name contains invalid characters"⟩
  else none

/-- Go `func CheckValidBucketName(bucketName string) (err error)`. -/
def CheckValidBucketName (bucketName : String) : Option GoError :=
  checkBucketNameCommon bucketName false

/-- A non-empty run of ASCII digits. -/
def DigitRun (a : List Char) : Prop := a ≠ [] ∧ ∀ c ∈ a, isDigit c = true

/-- The dotted-quad form `digits.digits.digits.digits`. -/
def IsDottedQuad (s : List Char) : Prop :=
  ∃ a b c d, DigitRun a ∧ DigitRun b ∧ DigitRun c ∧ DigitRun d ∧
    s = a ++ '.' :: (b ++ '.' :: (c ++ '.' :: d))

/-! ## Key layout of `meta/client/tikvclient/client.go` and cache keys -/

/-- Go constant `TableClusterPrefix`. -/
def TableClusterPrefix : String := "c"

/-- Go constant `TableBucketPrefix`. -/
def TableBucketPrefix : String := "b"

/-- Go constant `TableUserBucketPrefix`. -/
def TableUserBucketPrefix : String := "u"

/-- Go constant `TableMultipartPrefix`. -/
def TableMultipartPrefix : String := "m"

/-- Go constant `TableObjectPartPrefix`. -/
def TableObjectPartPrefix : String := "p"

/-- Go constant `TableLifeCyclePrefix`. -/
def TableLifeCyclePrefix : String := "l"

/-- Go `TableMaxKeySuffix = string(0xFF)`: the conversion of the integer 255. -/
def TableMaxKeySuffix : String := stringOfInt 0xFF

/-- Go `TableSeparator = string(92)`, the backslash. -/
def TableSeparator : String := stringOfInt 92

/-- The six table prefixes: cluster, bucket, user-bucket, multipart, object-part,
lifecycle. -/
def tablePrefixes : List String :=
  [TableClusterPrefix, TableBucketPrefix, TableUserBucketPrefix, TableMultipartPrefix,
   TableObjectPartPrefix, TableLifeCyclePrefix]

/-- The cache key of `Meta.GetVersionedObject`, `bucketName+":"+objectName+":"+version`;
`Meta.GetObject` builds it with the empty version. -/
def cacheKey (bucketName objectName version : String) : String :=
  bucketName ++ ":" ++ objectName ++ ":" ++ version

/-- The cache key of `Meta.GetObject`, `bucketName+":"+objectName+":"`, looked up
in the same table `redis.ObjectTable` as the keys of `Meta.GetVersionedObject`. -/
def objectCacheKey (bucketName objectName : String) : String :=
  bucketName ++ ":" ++ objectName ++ ":"

/-! ## Running an operation -/

/-- Result and trace of an operation started on backend state `s` with an empty trace. -/
def exec {σ α : Type} (op : Run σ α) (s : σ) : α × List Event :=
  ((op ⟨s, []⟩).1, (op ⟨s, []⟩).2.trace)

/-- The calls of a trace, without their results. -/
def calls (t : List Event) : List Call := t.map Event.call

/-- Every recorded call returned a nil error. -/
def AllSucceed (t : List Event) : Prop := ∀ ev ∈ t, ev.err = none

instance (t : List Event) : Decidable (AllSucceed t) :=
  inferInstanceAs (Decidable (∀ ev ∈ t, ev.err = none))

/-- Answer of the scripted backend to its `s`-th call: the `s`-th entry of the
script, and nil once the script is exhausted. -/
def scripted (script : List (Option GoError)) (s : Nat) : Option GoError × Nat :=
  (script.getD s none, s + 1)

/-- A backend whose state counts the calls served so far and whose `k`-th call
returns the `k`-th entry of `script`; `NewTrans` hands out handle `7`. -/
def scriptClient (script : List (Option GoError)) : Client Nat where
  NewTrans := fun s => ((7, script.getD s none), s + 1)
  CommitTrans := fun _ => scripted script
  AbortTrans := fun _ => scripted script
  DeleteObject := fun _ _ => scripted script
  DeleteVersionedObject := fun _ _ => scripted script
  PutObjectToGarbageCollection := fun _ _ => scripted script
  UpdateUsage := fun _ _ _ => scripted script
  AddDeleteMarker := fun _ _ _ => scripted script
  DeleteMultipart := fun _ _ => scripted script
  PutObjectPart := fun _ _ _ => scripted script
  RenameObjectPart := fun _ _ _ => scripted script
  RenameObject := fun _ _ _ => scripted script
  PutObject := fun _ _ _ => scripted script
  UpdateObject := fun _ _ _ => scripted script
  PutObjectWithoutMultiPart := fun _ => scripted script
  UpdateObjectWithoutMultiPart := fun _ => scripted script
  PutVersionedObject := fun _ _ _ => scripted script

/-- A backend for which every call succeeds.  (The TiKV client of
`meta/client/tikvclient/multipart.go` answers `nil` in the same way.) -/
def okClient : Client Nat := scriptClient []

/-- An object of 100 bytes in bucket `b1`. -/
def sampleObject : Object :=
  { BucketName := "b1", Name := "k", VersionId := "", Size := 100, Etag := "e",
    DeleteMarker := false, Parts := none }

/-- Five megabytes, in bytes. -/
def fiveMB : Int := 5 * 1024 * 1024

/-- Part number 1 of five megabytes. -/
def samplePart1 : Part := { PartNumber := 1, Size := fiveMB, Etag := "p1", ObjectId := "o1" }

/-- Part number 2 of five megabytes. -/
def samplePart2 : Part := { PartNumber := 2, Size := fiveMB, Etag := "p2", ObjectId := "o2" }

/-- An upload in bucket `b1` holding parts `{1: 5MB, 2: 5MB}`. -/
def sampleMultipart : Multipart :=
  { BucketName := "b1", ObjectName := "k", UploadId := "u1",
    Parts := [(1, samplePart1), (2, samplePart2)] }

/-- Transaction control: `NewTrans`, `AbortTrans` and `CommitTrans` open and close a transaction;
every other call is a mutation issued inside it. -/
def Call.isTransControl : Call → Bool
  | Call.NewTrans _ => true
  | Call.CommitTrans _ => true
  | Call.AbortTrans _ => true
  | _ => false

/-- The mutations of a trace: its calls other than transaction control, in order. -/
def mutations (t : List Event) : List Call :=
  (calls t).filter (fun c => !c.isTransControl)

/-- A backend error used in the examples. -/
def markerFailed : GoError := ⟨"AddDeleteMarker failed"⟩

/-- A backend error used in the examples. -/
def commitFailed : GoError := ⟨"CommitTrans failed"⟩

/-- A backend error used in the examples. -/
def writeFailed : GoError := ⟨"PutObjectPart failed"⟩

/-- Recogniser of `UpdateUsage` calls. -/
def Call.isUpdateUsage : Call → Bool
  | Call.UpdateUsage _ _ _ => true
  | _ => false

/-- The `UpdateUsage` calls of a trace, in order. -/
def usageCalls (t : List Event) : List Call :=
  (calls t).filter Call.isUpdateUsage

/-- The delta of an `UpdateUsage` call. -/
def Call.usageDelta? : Call → Option Int
  | Call.UpdateUsage _ size _ => some size
  | _ => none

/-- The deltas handed to `UpdateUsage` along a trace, in order. -/
def usageDeltas (t : List Event) : List Int :=
  t.filterMap (fun ev => ev.call.usageDelta?)

/-- The sizes of the parts held by a part map. -/
def partSizes (parts : List (Int × Part)) : List Int :=
  parts.map (fun kv => kv.2.Size)

/-- The size of the entry stored in `multipart.Parts` under part number `n`,
and 0 when there is no such entry (the spec's `previousSizeIfPartExisted`). -/
def storedSize (multipart : Multipart) (n : Int) : Int :=
  match multipart.lookupPart n with
  | some old => old.Size
  | none => 0

/-- Successive calls of `Meta.PutObjectPart`, one per entry, each on the backend
state the previous one left; yields the error of every call. -/
def putParts {σ : Type} (c : Client σ) :
    List (Multipart × Part) → Run σ (List (Option GoError))
  | [] => fun w => ([], w)
  | (multipart, part) :: rest => fun w =>
    ((PutObjectPart c multipart part w).1 ::
        (putParts c rest (PutObjectPart c multipart part w).2).1,
     (putParts c rest (PutObjectPart c multipart part w).2).2)

/-- Uploads to one part number `k` of one upload: every part carries number `k`,
the multipart handed to a call holds under `k` the part written by the call
before it, and the multipart handed to the first call holds `prev` there
(`none`: no entry). -/
def ReuploadChain (k : Int) : Option Part → List (Multipart × Part) → Prop
  | _, [] => True
  | prev, (multipart, part) :: rest =>
    part.PartNumber = k ∧ multipart.lookupPart k = prev ∧ ReuploadChain k (some part) rest

/-- Size of a part that may be absent: 0 when absent. -/
def sizeOr0 : Option Part → Int
  | some q => q.Size
  | none => 0

/-- The object of `sampleObject` once it is a delete marker. -/
def sampleMarker : Object := { sampleObject with DeleteMarker := true }

/-- Decision procedure for `ReuploadChain`, by recursion on the sequence. -/
instance decReuploadChain (k : Int) :
    ∀ (prev : Option Part) (seq : List (Multipart × Part)), Decidable (ReuploadChain k prev seq)
  | _, [] => isTrue trivial
  | prev, (multipart, part) :: rest =>
    have := decReuploadChain k (some part) rest
    inferInstanceAs (Decidable (part.PartNumber = k ∧ multipart.lookupPart k = prev ∧
      ReuploadChain k (some part) rest))

/-- Part number 3 with the given size. -/
def part3 (size : Int) : Part := { PartNumber := 3, Size := size, Etag := "p3", ObjectId := "o3" }

/-- The upload of `sampleMultipart` once part 3 has been written with the given size. -/
def withPart3 (size : Int) : Multipart :=
  { sampleMultipart with Parts := sampleMultipart.Parts ++ [(3, part3 size)] }

/-- Part 3 uploaded three times, with 5MB, then 7MB, then 2MB. -/
def reuploads : List (Multipart × Part) :=
  [(sampleMultipart, part3 fiveMB),
   (withPart3 fiveMB, part3 (7 * 1024 * 1024)),
   (withPart3 (7 * 1024 * 1024), part3 (2 * 1024 * 1024))]

/-- An upload in bucket `b1` with no parts. -/
def emptyMultipart : Multipart :=
  { BucketName := "b1", ObjectName := "k", UploadId := "u0", Parts := [] }

/-- The unversioned writes that update a row in place. -/
def Call.isUpdate : Call → Bool
  | Call.UpdateObject _ _ _ => true
  | Call.UpdateObjectWithoutMultiPart _ => true
  | _ => false

/-- The direct-put variants, `PutObjectWithoutMultiPart` and
`UpdateObjectWithoutMultiPart`. -/
def Call.isDirectPut : Call → Bool
  | Call.PutObjectWithoutMultiPart _ => true
  | Call.UpdateObjectWithoutMultiPart _ => true
  | _ => false

/-- A request on bucket `b1`, versioning disabled, with no prior object row. -/
def insertContext : RequestContext :=
  { BucketInfo := some ⟨"b1", Versioning.VersionDisabled⟩, ObjectInfo := none }

/-- An object that carries a part map of its own. -/
def assembledObject : Object := { sampleObject with Parts := some [(1, samplePart1)] }

/-- A snapshot with bucket `b1` owned by tenant `u1` (read limit 5, write limit
unset), and bucket `b2` owned by tenant `u2`, who has no limits. -/
def sampleQos : QosMeta :=
  { bucketUser := [("b1", "u1"), ("b2", "u2")],
    userQosLimit := [("u1", ⟨5, 0, 0⟩)] }

/-- A limiter that is down: every query returns an error. -/
def downLimiter : Limiter Nat where
  Allow := fun _ _ n => ((false, some ⟨"redis: connection refused"⟩), n + 1)

/-- A limiter that denies every query. -/
def denyLimiter : Limiter Nat where
  Allow := fun _ _ n => ((false, none), n + 1)

/-- The error contract of a transactional operation, read off its result `r.1`
and trace `r.2`: whenever `NewTrans` succeeded with handle `tx` and some later
step other than an `AbortTrans` returned the error `e`, the only call issued
after that step is `AbortTrans tx`, no `CommitTrans` succeeded anywhere in the
trace, and the operation returned `e`. -/
def AbortsOnFailure (r : Option GoError × List Event) : Prop :=
  ∀ (tx : Tx) (pre : List Event) (call : Call) (e : GoError) (post : List Event),
    r.2 = ⟨Call.NewTrans tx, none⟩ :: (pre ++ ⟨call, some e⟩ :: post) →
    (∀ t, call ≠ Call.AbortTrans t) →
    (∃ ra, post = [⟨Call.AbortTrans tx, ra⟩]) ∧
    (∀ t, (⟨Call.CommitTrans t, none⟩ : Event) ∉ r.2) ∧
    r.1 = some e

/-- The three shapes a run of a transactional operation can take: `NewTrans`
failed and nothing else was issued; every step succeeded; or, after a
successful `NewTrans` and some successful steps that are not commits, one step
failed, `AbortTrans` followed on the same handle, and the failing step's error
was returned. -/
def TxShape (r : Option GoError × List Event) : Prop :=
  (∃ tx e, r.2 = [⟨Call.NewTrans tx, some e⟩]) ∨
  AllSucceed r.2 ∨
  (∃ tx oks c e ra,
    r.2 = ⟨Call.NewTrans tx, none⟩ :: (oks ++ [⟨c, some e⟩, ⟨Call.AbortTrans tx, ra⟩]) ∧
    AllSucceed oks ∧ (∀ t, (⟨Call.CommitTrans t, none⟩ : Event) ∉ oks) ∧ r.1 = some e)

/-! ## Theorems -/

/-- C1. When every backend step succeeds, `Meta.DeleteObject` (and likewise
`Meta.DeleteVersionedObject`) issues exactly the calls `NewTrans`, one row
delete for the object, one `PutObjectToGarbageCollection` for the object, one
`UpdateUsage` on `object.BucketName` with delta `-object.Size`, and one
`CommitTrans`, all on the handle `NewTrans` returned and in that order; it
issues no `AbortTrans` and returns nil. -/
theorem deleteObject_success_trace {σ : Type} (c : Client σ) (object : Object) (s : σ) :
    (AllSucceed (exec (DeleteObject c object) s).2 →
      (exec (DeleteObject c object) s).1 = none ∧
      ∃ tx, calls (exec (DeleteObject c object) s).2 =
        [Call.NewTrans tx, Call.DeleteObject object tx,
         Call.PutObjectToGarbageCollection object tx,
         Call.UpdateUsage object.BucketName (neg64 object.Size) tx, Call.CommitTrans tx]) ∧
    (AllSucceed (exec (DeleteVersionedObject c object) s).2 →
      (exec (DeleteVersionedObject c object) s).1 = none ∧
      ∃ tx, calls (exec (DeleteVersionedObject c object) s).2 =
        [Call.NewTrans tx, Call.DeleteVersionedObject object tx,
         Call.PutObjectToGarbageCollection object tx,
         Call.UpdateUsage object.BucketName (neg64 object.Size) tx, Call.CommitTrans tx]) := by
  constructor
  · simp only [exec, calls, AllSucceed, DeleteObject, newTrans, DeleteObject.body, invoke,
      deferCommitOrAbort]
    rcases hN : c.NewTrans s with ⟨⟨tx, e0⟩, s1⟩
    rcases hD : c.DeleteObject object tx s1 with ⟨e1, s2⟩
    rcases hG : c.PutObjectToGarbageCollection object tx s2 with ⟨e2, s3⟩
    rcases hU : c.UpdateUsage object.BucketName (neg64 object.Size) tx s3 with ⟨e3, s4⟩
    rcases hC : c.CommitTrans tx s4 with ⟨e4, s5⟩
    cases e0 <;> cases e1 <;> cases e2 <;> cases e3 <;> cases e4 <;> simp [hN, hD, hG, hU, hC]
  · simp only [exec, calls, AllSucceed, DeleteVersionedObject, newTrans,
      DeleteVersionedObject.body, invoke, deferCommitOrAbort]
    rcases hN : c.NewTrans s with ⟨⟨tx, e0⟩, s1⟩
    rcases hD : c.DeleteVersionedObject object tx s1 with ⟨e1, s2⟩
    rcases hG : c.PutObjectToGarbageCollection object tx s2 with ⟨e2, s3⟩
    rcases hU : c.UpdateUsage object.BucketName (neg64 object.Size) tx s3 with ⟨e3, s4⟩
    rcases hC : c.CommitTrans tx s4 with ⟨e4, s5⟩
    cases e0 <;> cases e1 <;> cases e2 <;> cases e3 <;> cases e4 <;> simp [hN, hD, hG, hU, hC]

/-- Witness for C1: on the always-succeeding backend the 100-byte object of
bucket `b1` is deleted with usage delta `-100`. -/
theorem deleteObject_success_trace_witness :
    AllSucceed (exec (DeleteObject okClient sampleObject) 0).2 ∧
    AllSucceed (exec (DeleteVersionedObject okClient sampleObject) 0).2 ∧
    (exec (DeleteObject okClient sampleObject) 0).1 = none ∧
    (exec (DeleteVersionedObject okClient sampleObject) 0).1 = none ∧
    calls (exec (DeleteObject okClient sampleObject) 0).2 =
      [Call.NewTrans 7, Call.DeleteObject sampleObject 7,
       Call.PutObjectToGarbageCollection sampleObject 7,
       Call.UpdateUsage "b1" (-100) 7, Call.CommitTrans 7] :=
  ⟨by decide, by decide,
   ((deleteObject_success_trace okClient sampleObject 0).1 (by decide)).1,
   ((deleteObject_success_trace okClient sampleObject 0).2 (by decide)).1,
   by decide⟩

/-- A run of one of the three shapes satisfies the error contract. -/
theorem txShape_abortsOnFailure {r : Option GoError × List Event} (h : TxShape r) :
    AbortsOnFailure r := by
  intro tx pre call e post htr hna
  rcases h with ⟨tx1, e1, h1⟩ | hall | ⟨tx1, oks, c, e1, ra, h1, hoks, hnc, hret⟩
  · rw [h1] at htr
    simp at htr
  · exfalso
    have hmem : (⟨call, some e⟩ : Event) ∈ r.2 := by
      rw [htr]; simp
    have := hall _ hmem
    simp at this
  · have hcommit : ∀ t, (⟨Call.CommitTrans t, none⟩ : Event) ∉ r.2 := by
      intro t hmem
      rw [h1] at hmem
      simp only [List.mem_cons, Event.mk.injEq, List.mem_append, List.mem_singleton,
        reduceCtorEq, false_and, and_false, or_false, false_or, List.not_mem_nil] at hmem
      exact hnc t hmem
    rw [h1] at htr
    simp only [List.cons.injEq, Event.mk.injEq, Call.NewTrans.injEq, and_true] at htr
    obtain ⟨htx, happ⟩ := htr
    subst htx
    rcases List.append_eq_append_iff.1 happ with ⟨a, ha, hb⟩ | ⟨a, ha, hb⟩
    · -- the successful steps are a prefix of `pre`
      rcases a with _ | ⟨x, _ | ⟨y, a⟩⟩
      · simp only [List.nil_append, List.cons.injEq, Event.mk.injEq, Option.some.injEq] at hb
        exact ⟨⟨ra, hb.2.symm⟩, hcommit, by rw [hret, hb.1.2]⟩
      · exfalso
        simp only [List.cons_append, List.nil_append, List.cons.injEq, Event.mk.injEq] at hb
        exact hna _ hb.2.1.1.symm
      · simp at hb
    · -- `pre` is a proper prefix of the successful steps: the failing step would be one of them
      rcases a with _ | ⟨x, a⟩
      · simp only [List.nil_append, List.cons.injEq, Event.mk.injEq, Option.some.injEq] at hb
        exact ⟨⟨ra, hb.2⟩, hcommit, by rw [hret, hb.1.2]⟩
      · exfalso
        simp only [List.cons_append, List.cons.injEq] at hb
        have hmem : (⟨call, some e⟩ : Event) ∈ oks := by
          rw [ha, hb.1]; simp
        have := hoks _ hmem
        simp at this

/-- Building the third shape from its parts. -/
theorem txShape_failed {ret : Option GoError} {trace : List Event} (tx : Tx)
    (oks : List Event) (c : Call) (e : GoError) (ra : Option GoError)
    (h1 : trace = ⟨Call.NewTrans tx, none⟩ :: (oks ++ [⟨c, some e⟩, ⟨Call.AbortTrans tx, ra⟩]))
    (h2 : AllSucceed oks) (h3 : ∀ t, (⟨Call.CommitTrans t, none⟩ : Event) ∉ oks)
    (h4 : ret = some e) : TxShape (ret, trace) :=
  Or.inr (Or.inr ⟨tx, oks, c, e, ra, h1, h2, h3, h4⟩)

/-- Every run of `Meta.DeleteObject` has one of the three shapes. -/
theorem deleteObject_shape {σ : Type} (c : Client σ) (object : Object) (s : σ) :
    TxShape (exec (DeleteObject c object) s) := by
  simp only [exec, DeleteObject, newTrans, DeleteObject.body, invoke, deferCommitOrAbort]
  rcases hN : c.NewTrans s with ⟨⟨tx, e0⟩, s1⟩
  rcases hD : c.DeleteObject object tx s1 with ⟨e1, s2⟩
  rcases hG : c.PutObjectToGarbageCollection object tx s2 with ⟨e2, s3⟩
  rcases hU : c.UpdateUsage object.BucketName (neg64 object.Size) tx s3 with ⟨e3, s4⟩
  rcases hC : c.CommitTrans tx s4 with ⟨e4, s5⟩
  rcases e0 with _ | e0
  · rcases e1 with _ | e1
    · rcases e2 with _ | e2
      · rcases e3 with _ | e3
        · rcases e4 with _ | e4
          · refine Or.inr (Or.inl ?_)
            simp [AllSucceed, hD, hG, hU, hC]
          · simp only [hD, hG, hU, hC]
            exact txShape_failed tx [⟨Call.DeleteObject object tx, none⟩,
              ⟨Call.PutObjectToGarbageCollection object tx, none⟩,
              ⟨Call.UpdateUsage object.BucketName (neg64 object.Size) tx, none⟩] _ e4 _ rfl
              (by simp [AllSucceed]) (by simp) rfl
        · simp only [hD, hG, hU]
          exact txShape_failed tx [⟨Call.DeleteObject object tx, none⟩,
            ⟨Call.PutObjectToGarbageCollection object tx, none⟩] _ e3 _ rfl
            (by simp [AllSucceed]) (by simp) rfl
      · simp only [hD, hG]
        exact txShape_failed tx [⟨Call.DeleteObject object tx, none⟩] _ e2 _ rfl
          (by simp [AllSucceed]) (by simp) rfl
    · simp only [hD]
      exact txShape_failed tx [] _ e1 _ rfl (by simp [AllSucceed]) (by simp) rfl
  · exact Or.inl ⟨tx, e0, rfl⟩

/-- Every run of `Meta.DeleteVersionedObject` has one of the three shapes. -/
theorem deleteVersionedObject_shape {σ : Type} (c : Client σ) (object : Object) (s : σ) :
    TxShape (exec (DeleteVersionedObject c object) s) := by
  simp only [exec, DeleteVersionedObject, newTrans, DeleteVersionedObject.body, invoke,
    deferCommitOrAbort]
  rcases hN : c.NewTrans s with ⟨⟨tx, e0⟩, s1⟩
  rcases hD : c.DeleteVersionedObject object tx s1 with ⟨e1, s2⟩
  rcases hG : c.PutObjectToGarbageCollection object tx s2 with ⟨e2, s3⟩
  rcases hU : c.UpdateUsage object.BucketName (neg64 object.Size) tx s3 with ⟨e3, s4⟩
  rcases hC : c.CommitTrans tx s4 with ⟨e4, s5⟩
  rcases e0 with _ | e0
  · rcases e1 with _ | e1
    · rcases e2 with _ | e2
      · rcases e3 with _ | e3
        · rcases e4 with _ | e4
          · refine Or.inr (Or.inl ?_)
            simp [AllSucceed, hD, hG, hU, hC]
          · simp only [hD, hG, hU, hC]
            exact txShape_failed tx [⟨Call.DeleteVersionedObject object tx, none⟩,
              ⟨Call.PutObjectToGarbageCollection object tx, none⟩,
              ⟨Call.UpdateUsage object.BucketName (neg64 object.Size) tx, none⟩] _ e4 _ rfl
              (by simp [AllSucceed]) (by simp) rfl
        · simp only [hD, hG, hU]
          exact txShape_failed tx [⟨Call.DeleteVersionedObject object tx, none⟩,
            ⟨Call.PutObjectToGarbageCollection object tx, none⟩] _ e3 _ rfl
            (by simp [AllSucceed]) (by simp) rfl
      · simp only [hD, hG]
        exact txShape_failed tx [⟨Call.DeleteVersionedObject object tx, none⟩] _ e2 _ rfl
          (by simp [AllSucceed]) (by simp) rfl
    · simp only [hD]
      exact txShape_failed tx [] _ e1 _ rfl (by simp [AllSucceed]) (by simp) rfl
  · exact Or.inl ⟨tx, e0, rfl⟩

/-- Every run of `Meta.DeleteMultipart` has one of the three shapes. -/
theorem deleteMultipart_shape {σ : Type} (c : Client σ) (multipart : Multipart) (s : σ) :
    TxShape (exec (DeleteMultipart c multipart) s) := by
  simp only [exec, DeleteMultipart, newTrans, DeleteMultipart.body, invoke, deferAbort]
  rcases hN : c.NewTrans s with ⟨⟨tx, e0⟩, s1⟩
  rcases hD : c.DeleteMultipart multipart tx s1 with ⟨e1, s2⟩
  rcases hU : c.UpdateUsage multipart.BucketName (neg64 (removedSizeOf multipart.Parts)) tx s2
    with ⟨e2, s3⟩
  rcases hC : c.CommitTrans tx s3 with ⟨e3, s4⟩
  rcases e0 with _ | e0
  · rcases e1 with _ | e1
    · rcases e2 with _ | e2
      · rcases e3 with _ | e3
        · refine Or.inr (Or.inl ?_)
          simp [AllSucceed, hD, hU, hC]
        · simp only [hD, hU, hC]
          exact txShape_failed tx [⟨Call.DeleteMultipart multipart tx, none⟩,
            ⟨Call.UpdateUsage multipart.BucketName (neg64 (removedSizeOf multipart.Parts)) tx,
              none⟩] _ e3 _ rfl (by simp [AllSucceed]) (by simp) rfl
      · simp only [hD, hU]
        exact txShape_failed tx [⟨Call.DeleteMultipart multipart tx, none⟩] _ e2 _ rfl
          (by simp [AllSucceed]) (by simp) rfl
    · simp only [hD]
      exact txShape_failed tx [] _ e1 _ rfl (by simp [AllSucceed]) (by simp) rfl
  · exact Or.inl ⟨tx, e0, rfl⟩

/-- Every run of `Meta.PutObjectPart` has one of the three shapes. -/
theorem putObjectPart_shape {σ : Type} (c : Client σ) (multipart : Multipart) (part : Part)
    (s : σ) : TxShape (exec (PutObjectPart c multipart part) s) := by
  simp only [exec, PutObjectPart, newTrans, PutObjectPart.body, invoke, deferAbort]
  rcases hN : c.NewTrans s with ⟨⟨tx, e0⟩, s1⟩
  rcases hD : c.PutObjectPart multipart part tx s1 with ⟨e1, s2⟩
  rcases hU : c.UpdateUsage multipart.BucketName
    (sub64 part.Size (previousSize multipart part)) tx s2 with ⟨e2, s3⟩
  rcases hC : c.CommitTrans tx s3 with ⟨e3, s4⟩
  rcases e0 with _ | e0
  · rcases e1 with _ | e1
    · rcases e2 with _ | e2
      · rcases e3 with _ | e3
        · refine Or.inr (Or.inl ?_)
          simp [AllSucceed, hD, hU, hC]
        · simp only [hD, hU, hC]
          exact txShape_failed tx [⟨Call.PutObjectPart multipart part tx, none⟩,
            ⟨Call.UpdateUsage multipart.BucketName
              (sub64 part.Size (previousSize multipart part)) tx, none⟩] _ e3 _ rfl
            (by simp [AllSucceed]) (by simp) rfl
      · simp only [hD, hU]
        exact txShape_failed tx [⟨Call.PutObjectPart multipart part tx, none⟩] _ e2 _ rfl
          (by simp [AllSucceed]) (by simp) rfl
    · simp only [hD]
      exact txShape_failed tx [] _ e1 _ rfl (by simp [AllSucceed]) (by simp) rfl
  · exact Or.inl ⟨tx, e0, rfl⟩

/-- Every run of `Meta.RenameObjectPart` has one of the three shapes. -/
theorem renameObjectPart_shape {σ : Type} (c : Client σ) (object : Object)
    (sourceObject : String) (s : σ) :
    TxShape (exec (RenameObjectPart c object sourceObject) s) := by
  simp only [exec, RenameObjectPart, newTrans, RenameObjectPart.body, invoke, deferAbort]
  rcases hN : c.NewTrans s with ⟨⟨tx, e0⟩, s1⟩
  rcases hD : c.RenameObjectPart object sourceObject tx s1 with ⟨e1, s2⟩
  rcases hU : c.RenameObject object sourceObject tx s2 with ⟨e2, s3⟩
  rcases hC : c.CommitTrans tx s3 with ⟨e3, s4⟩
  rcases e0 with _ | e0
  · rcases e1 with _ | e1
    · rcases e2 with _ | e2
      · rcases e3 with _ | e3
        · refine Or.inr (Or.inl ?_)
          simp [AllSucceed, hD, hU, hC]
        · simp only [hD, hU, hC]
          exact txShape_failed tx [⟨Call.RenameObjectPart object sourceObject tx, none⟩,
            ⟨Call.RenameObject object sourceObject tx, none⟩] _ e3 _ rfl
            (by simp [AllSucceed]) (by simp) rfl
      · simp only [hD, hU]
        exact txShape_failed tx [⟨Call.RenameObjectPart object sourceObject tx, none⟩] _ e2 _ rfl
          (by simp [AllSucceed]) (by simp) rfl
    · simp only [hD]
      exact txShape_failed tx [] _ e1 _ rfl (by simp [AllSucceed]) (by simp) rfl
  · exact Or.inl ⟨tx, e0, rfl⟩

/-- C2. For each of `Meta.DeleteObject`, `Meta.DeleteVersionedObject`,
`Meta.DeleteMultipart`, `Meta.PutObjectPart` and `Meta.RenameObjectPart`, every
backend and every input: if a backend step after a successful `NewTrans` fails
(the metadata write or delete, the garbage-collection enqueue, the usage
update, the rename, or the commit), the only call issued afterwards is the
`AbortTrans` of that transaction, no `CommitTrans` succeeds, and the operation
returns the error of the failing step. -/
theorem transactional_ops_abort_on_failure {σ : Type} (c : Client σ) (s : σ) (object : Object)
    (multipart : Multipart) (part : Part) (sourceObject : String) :
    AbortsOnFailure (exec (DeleteObject c object) s) ∧
    AbortsOnFailure (exec (DeleteVersionedObject c object) s) ∧
    AbortsOnFailure (exec (DeleteMultipart c multipart) s) ∧
    AbortsOnFailure (exec (PutObjectPart c multipart part) s) ∧
    AbortsOnFailure (exec (RenameObjectPart c object sourceObject) s) :=
  ⟨txShape_abortsOnFailure (deleteObject_shape c object s),
   txShape_abortsOnFailure (deleteVersionedObject_shape c object s),
   txShape_abortsOnFailure (deleteMultipart_shape c multipart s),
   txShape_abortsOnFailure (putObjectPart_shape c multipart part s),
   txShape_abortsOnFailure (renameObjectPart_shape c object sourceObject s)⟩

/-- Witness for C2: the part write of `Meta.PutObjectPart` fails on the scripted
backend; `UpdateUsage` and `CommitTrans` are not issued, the transaction is
aborted and the write error is returned. -/
theorem transactional_ops_abort_on_failure_witness :
    exec (PutObjectPart (scriptClient [none, some writeFailed]) sampleMultipart samplePart1) 0 =
      (some writeFailed,
       [⟨Call.NewTrans 7, none⟩,
        ⟨Call.PutObjectPart sampleMultipart samplePart1 7, some writeFailed⟩,
        ⟨Call.AbortTrans 7, none⟩]) ∧
    ((∃ ra, [(⟨Call.AbortTrans 7, none⟩ : Event)] = [⟨Call.AbortTrans 7, ra⟩]) ∧
     (∀ t, (⟨Call.CommitTrans t, none⟩ : Event) ∉
        (exec (PutObjectPart (scriptClient [none, some writeFailed])
          sampleMultipart samplePart1) 0).2) ∧
     (exec (PutObjectPart (scriptClient [none, some writeFailed])
        sampleMultipart samplePart1) 0).1 = some writeFailed) :=
  ⟨by decide,
   (transactional_ops_abort_on_failure (scriptClient [none, some writeFailed]) 0 sampleObject
      sampleMultipart samplePart1 "src").2.2.2.1 7 []
      (Call.PutObjectPart sampleMultipart samplePart1 7) writeFailed
      [⟨Call.AbortTrans 7, none⟩] (by decide) (by intro t; simp)⟩

/-- C3 (the code at the failing input). `Meta.DeleteSuspendedObject` on an object
that is not a delete marker, with a backend whose `AddDeleteMarker` fails after
the row delete, the garbage-collection enqueue and the usage update succeeded:
the deferred closure still sees a nil `err`, so `CommitTrans` is called and
succeeds, `AbortTrans` is never called, and the marker error is returned. -/
theorem deleteSuspendedObject_commits_after_failed_marker :
    exec (DeleteSuspendedObject (scriptClient [none, none, none, none, some markerFailed])
        "null" sampleObject) 0 =
      (some markerFailed,
       [⟨Call.NewTrans 7, none⟩,
        ⟨Call.DeleteObject sampleObject 7, none⟩,
        ⟨Call.PutObjectToGarbageCollection sampleObject 7, none⟩,
        ⟨Call.UpdateUsage "b1" (-100) 7, none⟩,
        ⟨Call.AddDeleteMarker sampleObject "null" 7, some markerFailed⟩,
        ⟨Call.CommitTrans 7, none⟩]) := by
  decide

/-- C4 (the code at the failing input). `Meta.DeleteSuspendedObject` with a
backend whose `CommitTrans` fails after every mutation succeeded: the
transaction is aborted, yet the operation returns nil, not the commit error. -/
theorem deleteSuspendedObject_returns_nil_on_failed_commit :
    exec (DeleteSuspendedObject
        (scriptClient [none, none, none, none, none, some commitFailed])
        "null" sampleObject) 0 =
      (none,
       [⟨Call.NewTrans 7, none⟩,
        ⟨Call.DeleteObject sampleObject 7, none⟩,
        ⟨Call.PutObjectToGarbageCollection sampleObject 7, none⟩,
        ⟨Call.UpdateUsage "b1" (-100) 7, none⟩,
        ⟨Call.AddDeleteMarker sampleObject "null" 7, none⟩,
        ⟨Call.CommitTrans 7, some commitFailed⟩,
        ⟨Call.AbortTrans 7, none⟩]) := by
  decide

/-- C5. `Meta.DeleteSuspendedObject`, for every backend.  On an object whose
`DeleteMarker` flag is set, the mutations issued are `AddDeleteMarker(object,
NullVersion)` alone when `NewTrans` succeeded and none at all when it failed:
no row delete, no garbage-collection enqueue, no `UpdateUsage`.  On an object
whose flag is not set, whenever `AddDeleteMarker` is issued (in particular
when `NewTrans` and the three steps after it succeed) the mutations are, in
this order and once each, the row delete, the garbage-collection enqueue,
`UpdateUsage` on `object.BucketName` with delta `-object.Size`, and that
`AddDeleteMarker`, all on the handle of `NewTrans`. -/
theorem deleteSuspendedObject_mutations {σ : Type} (c : Client σ) (NullVersion : String)
    (object : Object) (s : σ) :
    ∃ tx nerr,
      (exec (DeleteSuspendedObject c NullVersion object) s).2.head? =
        some ⟨Call.NewTrans tx, nerr⟩ ∧
      (object.DeleteMarker = true →
        mutations (exec (DeleteSuspendedObject c NullVersion object) s).2 =
          if nerr = none then [Call.AddDeleteMarker object NullVersion tx] else []) ∧
      (object.DeleteMarker = false →
        (AllSucceed ((exec (DeleteSuspendedObject c NullVersion object) s).2.take 4) ∨
          (∃ t v o, Call.AddDeleteMarker o v t ∈
            calls (exec (DeleteSuspendedObject c NullVersion object) s).2)) →
        mutations (exec (DeleteSuspendedObject c NullVersion object) s).2 =
          [Call.DeleteObject object tx, Call.PutObjectToGarbageCollection object tx,
           Call.UpdateUsage object.BucketName (neg64 object.Size) tx,
           Call.AddDeleteMarker object NullVersion tx]) := by
  simp only [exec, calls, mutations, AllSucceed, DeleteSuspendedObject, newTrans,
    DeleteSuspendedObject.body, invoke, deferCommitOrAbort]
  rcases hN : c.NewTrans s with ⟨⟨tx, e0⟩, s1⟩
  refine ⟨tx, e0, ?_⟩
  cases hdm : object.DeleteMarker
  · rcases hD : c.DeleteObject object tx s1 with ⟨e1, s2⟩
    rcases hG : c.PutObjectToGarbageCollection object tx s2 with ⟨e2, s3⟩
    rcases hU : c.UpdateUsage object.BucketName (neg64 object.Size) tx s3 with ⟨e3, s4⟩
    rcases hA : c.AddDeleteMarker object NullVersion tx s4 with ⟨e4, s5⟩
    rcases hC : c.CommitTrans tx s5 with ⟨e5, s6⟩
    cases e0 <;> cases e1 <;> cases e2 <;> cases e3 <;> cases e4 <;> cases e5 <;>
      simp [hD, hG, hU, hA, hC, Call.isTransControl]
  · rcases hA : c.AddDeleteMarker object NullVersion tx s1 with ⟨e1, s2⟩
    rcases hC : c.CommitTrans tx s2 with ⟨e2, s3⟩
    cases e0 <;> cases e1 <;> cases e2 <;> simp [hA, hC, Call.isTransControl]

/-- Witness for C5 on the always-succeeding backend: the delete marker gets
`AddDeleteMarker` alone; the 100-byte object gets the row delete, the
garbage-collection enqueue, `UpdateUsage` with `-100` and then `AddDeleteMarker`. -/
theorem deleteSuspendedObject_mutations_witness :
    (sampleMarker.DeleteMarker = true ∧
      mutations (exec (DeleteSuspendedObject okClient "null" sampleMarker) 0).2 =
        [Call.AddDeleteMarker sampleMarker "null" 7]) ∧
    (sampleObject.DeleteMarker = false ∧
      AllSucceed ((exec (DeleteSuspendedObject okClient "null" sampleObject) 0).2.take 4) ∧
      mutations (exec (DeleteSuspendedObject okClient "null" sampleObject) 0).2 =
        [Call.DeleteObject sampleObject 7, Call.PutObjectToGarbageCollection sampleObject 7,
         Call.UpdateUsage "b1" (-100) 7, Call.AddDeleteMarker sampleObject "null" 7]) := by
  constructor
  · obtain ⟨tx, nerr, hhead, h1, _⟩ :=
      deleteSuspendedObject_mutations okClient "null" sampleMarker 0
    have hh : (exec (DeleteSuspendedObject okClient "null" sampleMarker) 0).2.head? =
        some ⟨Call.NewTrans 7, none⟩ := by decide
    rw [hh] at hhead
    simp only [Option.some.injEq, Event.mk.injEq, Call.NewTrans.injEq] at hhead
    obtain ⟨rfl, rfl⟩ := hhead
    exact ⟨by decide, h1 (by decide)⟩
  · obtain ⟨tx, nerr, hhead, _, h2⟩ :=
      deleteSuspendedObject_mutations okClient "null" sampleObject 0
    have hh : (exec (DeleteSuspendedObject okClient "null" sampleObject) 0).2.head? =
        some ⟨Call.NewTrans 7, none⟩ := by decide
    rw [hh] at hhead
    simp only [Option.some.injEq, Event.mk.injEq, Call.NewTrans.injEq] at hhead
    obtain ⟨rfl, rfl⟩ := hhead
    exact ⟨by decide, by decide, h2 (by decide) (Or.inl (by decide))⟩

/-! ### `int64` arithmetic -/

/-- Wrapping leaves an `int64` value unchanged. -/
theorem wrapInt64_of_isInt64 (x : Int) (h : IsInt64 x) : wrapInt64 x = x := by
  unfold IsInt64 at h
  unfold wrapInt64
  omega

/-- A wrapped value is an `int64`. -/
theorem isInt64_wrapInt64 (x : Int) : IsInt64 (wrapInt64 x) := by
  unfold IsInt64 wrapInt64
  omega

/-- Wrapping the subtrahend first does not change a wrapped difference. -/
theorem wrapInt64_sub_wrap (a b : Int) : wrapInt64 (a - wrapInt64 b) = wrapInt64 (a - b) := by
  unfold wrapInt64
  omega

/-- Wrapping the left summand first does not change a wrapped sum. -/
theorem wrapInt64_wrap_add (a b : Int) : wrapInt64 (wrapInt64 a + b) = wrapInt64 (a + b) := by
  unfold wrapInt64
  omega

/-- Wrapping before negating does not change a wrapped negation. -/
theorem wrapInt64_neg_wrap (a : Int) : wrapInt64 (-wrapInt64 a) = wrapInt64 (-a) := by
  unfold wrapInt64
  omega

/-- Go's `-x` is the integer `-x` for every byte count `x`. -/
theorem neg64_of_nonneg (x : Int) (h0 : 0 ≤ x) (h1 : x < 2 ^ 63) : neg64 x = -x := by
  unfold neg64 wrapInt64
  omega

/-- Go's `x - y` is the integer difference for byte counts `x` and `y`. -/
theorem sub64_of_nonneg (x y : Int) (hx0 : 0 ≤ x) (hx1 : x < 2 ^ 63) (hy0 : 0 ≤ y)
    (hy1 : y < 2 ^ 63) : sub64 x y = x - y := by
  unfold sub64 wrapInt64
  omega

/-- The delta computed by `Meta.PutObjectPart` is Go's difference of the new
size and the stored size. -/
theorem sub64_previousSize (multipart : Multipart) (part : Part) :
    sub64 part.Size (previousSize multipart part) =
      sub64 part.Size (storedSize multipart part.PartNumber) := by
  unfold previousSize storedSize
  cases multipart.lookupPart part.PartNumber with
  | none => rfl
  | some old =>
    simp only [sub64, add64, zero_add]
    exact wrapInt64_sub_wrap _ _

/-- The accumulator of the `removedSize` loop agrees with the integer sum modulo `2 ^ 64`. -/
theorem foldl_add64_sizes (parts : List (Int × Part)) (acc : Int) :
    wrapInt64 (parts.foldl (fun removedSize kv => add64 removedSize kv.2.Size) acc) =
      wrapInt64 (acc + (partSizes parts).sum) := by
  induction parts generalizing acc with
  | nil => simp [partSizes]
  | cons kv rest ih =>
    simp only [List.foldl_cons, partSizes, List.map_cons, List.sum_cons]
    rw [ih, add64, wrapInt64_wrap_add]
    simp only [partSizes]
    congr 1
    ring

/-- The accumulator of the `removedSize` loop stays an `int64`. -/
theorem foldl_add64_isInt64 (parts : List (Int × Part)) (acc : Int) (h : IsInt64 acc) :
    IsInt64 (parts.foldl (fun removedSize kv => add64 removedSize kv.2.Size) acc) := by
  induction parts generalizing acc with
  | nil => simpa using h
  | cons kv rest ih =>
    simp only [List.foldl_cons]
    exact ih _ (isInt64_wrapInt64 _)

/-- The `removedSize` loop computes the wrapped sum of the part sizes. -/
theorem removedSizeOf_eq (parts : List (Int × Part)) :
    removedSizeOf parts = wrapInt64 (partSizes parts).sum := by
  have h1 := foldl_add64_sizes parts 0
  have h2 := foldl_add64_isInt64 parts 0 (by decide)
  rw [wrapInt64_of_isInt64 _ h2, zero_add] at h1
  exact h1

/-! ### Usage accounting of the multipart operations -/

/-- C6. Whenever the backend part write of `Meta.PutObjectPart` succeeds on
handle `tx`, that handle is the one `NewTrans` returned and the trace holds
exactly one `UpdateUsage` call: on `multipart.BucketName`, on `tx`, with delta
`part.Size` minus the size of the entry stored in `multipart.Parts` under
`part.PartNumber` (minus 0 when there is none), in Go's `int64` arithmetic.
For byte counts that is the integer difference, and the call is made whatever
the delta is, 0 included. -/
theorem putObjectPart_usage_delta {σ : Type} (c : Client σ) (multipart : Multipart)
    (part : Part) (s : σ) (tx : Tx)
    (hwrite : (⟨Call.PutObjectPart multipart part tx, none⟩ : Event) ∈
      (exec (PutObjectPart c multipart part) s).2) :
    (⟨Call.NewTrans tx, none⟩ : Event) ∈ (exec (PutObjectPart c multipart part) s).2 ∧
    usageCalls (exec (PutObjectPart c multipart part) s).2 =
      [Call.UpdateUsage multipart.BucketName
        (sub64 part.Size (storedSize multipart part.PartNumber)) tx] ∧
    (0 ≤ part.Size → part.Size < 2 ^ 63 →
      0 ≤ storedSize multipart part.PartNumber → storedSize multipart part.PartNumber < 2 ^ 63 →
      sub64 part.Size (storedSize multipart part.PartNumber) =
        part.Size - storedSize multipart part.PartNumber) := by
  refine ⟨?_, ?_, fun h1 h2 h3 h4 => sub64_of_nonneg _ _ h1 h2 h3 h4⟩
  all_goals
    revert hwrite
    try rw [← sub64_previousSize]
    simp only [exec, calls, usageCalls, PutObjectPart, newTrans, PutObjectPart.body, invoke,
      deferAbort]
    rcases hN : c.NewTrans s with ⟨⟨tx0, e0⟩, s1⟩
    rcases hD : c.PutObjectPart multipart part tx0 s1 with ⟨e1, s2⟩
    rcases hU : c.UpdateUsage multipart.BucketName
      (sub64 part.Size (previousSize multipart part)) tx0 s2 with ⟨e2, s3⟩
    rcases hC : c.CommitTrans tx0 s3 with ⟨e3, s4⟩
    cases e0 <;> cases e1 <;> cases e2 <;> cases e3 <;>
      simp +contextual [hD, hU, hC, Call.isUpdateUsage]

/-- Witness for C6: part 1 of `sampleMultipart`, already stored with 5MB, is
uploaded again with 5MB on the always-succeeding backend; `UpdateUsage` is
called once, with delta 0. -/
theorem putObjectPart_usage_delta_witness :
    (⟨Call.PutObjectPart sampleMultipart samplePart1 7, none⟩ : Event) ∈
      (exec (PutObjectPart okClient sampleMultipart samplePart1) 0).2 ∧
    usageCalls (exec (PutObjectPart okClient sampleMultipart samplePart1) 0).2 =
      [Call.UpdateUsage "b1" 0 7] :=
  ⟨by decide,
   (putObjectPart_usage_delta okClient sampleMultipart samplePart1 0 7 (by decide)).2.1⟩

/-- A successful `Meta.PutObjectPart` adds exactly one delta to those already in
the trace. -/
theorem putObjectPart_ok_deltas {σ : Type} (c : Client σ) (multipart : Multipart) (part : Part)
    (w : World σ) (h : (PutObjectPart c multipart part w).1 = none) :
    usageDeltas (PutObjectPart c multipart part w).2.trace =
      usageDeltas w.trace ++ [sub64 part.Size (previousSize multipart part)] := by
  revert h
  simp only [usageDeltas, PutObjectPart, newTrans, PutObjectPart.body, invoke, deferAbort]
  rcases hN : c.NewTrans w.backend with ⟨⟨tx0, e0⟩, s1⟩
  rcases hD : c.PutObjectPart multipart part tx0 s1 with ⟨e1, s2⟩
  rcases hU : c.UpdateUsage multipart.BucketName
    (sub64 part.Size (previousSize multipart part)) tx0 s2 with ⟨e2, s3⟩
  rcases hC : c.CommitTrans tx0 s3 with ⟨e3, s4⟩
  cases e0 <;> cases e1 <;> cases e2 <;> cases e3 <;>
    simp [hD, hU, hC, Call.usageDelta?, List.filterMap_append]

/-- In a chain of uploads the delta of a call is the integer difference between
its size and the size written by the call before it. -/
theorem previousSize_of_lookup (multipart : Multipart) (part : Part) (prev : Option Part)
    (hl : multipart.lookupPart part.PartNumber = prev)
    (hp0 : 0 ≤ sizeOr0 prev) (hp1 : sizeOr0 prev < 2 ^ 63)
    (hs0 : 0 ≤ part.Size) (hs1 : part.Size < 2 ^ 63) :
    sub64 part.Size (previousSize multipart part) = part.Size - sizeOr0 prev := by
  rw [sub64_previousSize]
  have : storedSize multipart part.PartNumber = sizeOr0 prev := by
    unfold storedSize
    rw [hl]
    cases prev <;> rfl
  rw [this]
  exact sub64_of_nonneg _ _ hs0 hs1 hp0 hp1

/-- Telescoping of the deltas along a chain of successful uploads, started from
any world and any previously stored part. -/
theorem putParts_deltas_sum {σ : Type} (c : Client σ) (k : Int)
    (seq : List (Multipart × Part)) :
    ∀ (prev : Option Part) (w : World σ), ReuploadChain k prev seq →
      0 ≤ sizeOr0 prev → sizeOr0 prev < 2 ^ 63 →
      (∀ mp ∈ seq, 0 ≤ mp.2.Size ∧ mp.2.Size < 2 ^ 63) →
      (∀ r ∈ (putParts c seq w).1, r = none) →
      (usageDeltas (putParts c seq w).2.trace).sum =
        (usageDeltas w.trace).sum +
          (seq.foldl (fun _ mp => mp.2.Size) (sizeOr0 prev) - sizeOr0 prev) := by
  induction seq with
  | nil =>
    intro prev w _ _ _ _ _
    simp [putParts]
  | cons mp rest ih =>
    obtain ⟨multipart, part⟩ := mp
    intro prev w hchain hp0 hp1 hsz hok
    obtain ⟨hk, hl, hrest⟩ := hchain
    have hsp := hsz (multipart, part) (List.mem_cons_self _ _)
    simp only [putParts, List.mem_cons, forall_eq_or_imp] at hok
    obtain ⟨hok1, hok2⟩ := hok
    have hstep := putObjectPart_ok_deltas c multipart part w hok1
    have hdelta := previousSize_of_lookup multipart part prev (hk ▸ hl) hp0 hp1 hsp.1 hsp.2
    have := ih (some part) (PutObjectPart c multipart part w).2 hrest hsp.1 hsp.2
      (fun mp hmp => hsz mp (List.mem_cons_of_mem _ hmp)) hok2
    simp only [putParts, List.foldl_cons]
    rw [this, hstep, hdelta]
    simp only [List.sum_append, List.sum_cons, List.sum_nil, sizeOr0]
    ring

/-- The fold that keeps the size of the entry it visits ends on the last entry. -/
theorem foldl_last_size (seq : List (Multipart × Part)) (hne : seq ≠ []) (a : Int) :
    seq.foldl (fun _ mp => mp.2.Size) a = (seq.getLast hne).2.Size := by
  induction seq generalizing a with
  | nil => exact absurd rfl hne
  | cons mp rest ih =>
    cases rest with
    | nil => rfl
    | cons mp2 rest2 =>
      rw [List.foldl_cons, ih (List.cons_ne_nil _ _), List.getLast_cons (List.cons_ne_nil _ _)]

/-- C7. A non-empty sequence of successful `Meta.PutObjectPart` calls to one
part number `k` of one upload, the multipart handed to each call holding under
`k` the part written by the call before it and no entry for the first call,
with sizes that are byte counts: the deltas handed to `UpdateUsage` over the
whole sequence add up to the size of the last part. -/
theorem putObjectPart_reupload_usage_is_last_size {σ : Type} (c : Client σ) (s : σ) (k : Int)
    (seq : List (Multipart × Part)) (hne : seq ≠ [])
    (hchain : ReuploadChain k none seq)
    (hsize : ∀ mp ∈ seq, 0 ≤ mp.2.Size ∧ mp.2.Size < 2 ^ 63)
    (hok : ∀ r ∈ (exec (putParts c seq) s).1, r = none) :
    (usageDeltas (exec (putParts c seq) s).2).sum = (seq.getLast hne).2.Size := by
  have h := putParts_deltas_sum c k seq none ⟨s, []⟩ hchain (by simp [sizeOr0])
    (by simp [sizeOr0]) hsize hok
  rw [foldl_last_size seq hne] at h
  simpa [exec, usageDeltas, sizeOr0] using h

/-- Witness for C7: part 3 uploaded with 5MB, 7MB and 2MB on the
always-succeeding backend; the deltas are +5MB, +2MB and -5MB, and add up to
2MB, the last size. -/
theorem putObjectPart_reupload_usage_is_last_size_witness :
    ReuploadChain 3 none reuploads ∧
    (∀ r ∈ (exec (putParts okClient reuploads) 0).1, r = none) ∧
    usageDeltas (exec (putParts okClient reuploads) 0).2 =
      [5 * 1024 * 1024, 2 * 1024 * 1024, -(5 * 1024 * 1024)] ∧
    (usageDeltas (exec (putParts okClient reuploads) 0).2).sum = 2 * 1024 * 1024 :=
  ⟨by decide, by decide, by decide,
   putObjectPart_reupload_usage_is_last_size okClient 0 3 reuploads (by decide) (by decide)
     (by decide) (by decide)⟩

/-- C8. When every backend step succeeds, `Meta.DeleteMultipart` issues exactly
`NewTrans`, the backend `DeleteMultipart`, one `UpdateUsage` on
`multipart.BucketName` and `CommitTrans`, all on one handle and in that order,
and returns nil.  The delta is minus the sum of the sizes of the parts in
`multipart.Parts` in Go's `int64` arithmetic, whatever the order in which the
map is ranged over; it is the integer `-(sum)` whenever the sizes are byte
counts whose sum fits an `int64`. -/
theorem deleteMultipart_usage_delta {σ : Type} (c : Client σ) (multipart : Multipart) (s : σ)
    (hok : AllSucceed (exec (DeleteMultipart c multipart) s).2) :
    (exec (DeleteMultipart c multipart) s).1 = none ∧
    ∃ tx delta,
      calls (exec (DeleteMultipart c multipart) s).2 =
        [Call.NewTrans tx, Call.DeleteMultipart multipart tx,
         Call.UpdateUsage multipart.BucketName delta tx, Call.CommitTrans tx] ∧
      delta = wrapInt64 (-(partSizes multipart.Parts).sum) ∧
      (∀ parts, parts.Perm multipart.Parts → neg64 (removedSizeOf parts) = delta) ∧
      ((∀ kv ∈ multipart.Parts, 0 ≤ kv.2.Size) → (partSizes multipart.Parts).sum < 2 ^ 63 →
        delta = -(partSizes multipart.Parts).sum) := by
  have hdelta : ∀ parts, neg64 (removedSizeOf parts) = wrapInt64 (-(partSizes parts).sum) := by
    intro parts
    rw [removedSizeOf_eq, neg64, wrapInt64_neg_wrap]
  have hnonneg : (∀ kv ∈ multipart.Parts, 0 ≤ kv.2.Size) → 0 ≤ (partSizes multipart.Parts).sum := by
    intro h
    apply List.sum_nonneg
    intro x hx
    simp only [partSizes, List.mem_map] at hx
    obtain ⟨kv, hkv, rfl⟩ := hx
    exact h kv hkv
  revert hok
  simp only [exec, calls, AllSucceed, DeleteMultipart, newTrans, DeleteMultipart.body, invoke,
    deferAbort]
  rcases hN : c.NewTrans s with ⟨⟨tx, e0⟩, s1⟩
  rcases hD : c.DeleteMultipart multipart tx s1 with ⟨e1, s2⟩
  rcases hU : c.UpdateUsage multipart.BucketName (neg64 (removedSizeOf multipart.Parts)) tx s2
    with ⟨e2, s3⟩
  rcases hC : c.CommitTrans tx s3 with ⟨e3, s4⟩
  cases e0 <;> cases e1 <;> cases e2 <;> cases e3 <;> simp [hD, hU, hC]
  refine ⟨tx, neg64 (removedSizeOf multipart.Parts), ⟨rfl, rfl, rfl⟩, hdelta _, ?_, ?_⟩
  · intro parts hperm
    rw [hdelta, hdelta]
    have : (partSizes parts).sum = (partSizes multipart.Parts).sum :=
      (hperm.map _).sum_eq
    rw [this]
  · intro h0 h1
    have h2 := hnonneg (fun kv hkv => h0 kv.1 kv.2 hkv)
    rw [hdelta]
    unfold wrapInt64
    omega

/-- Witness for C8: the upload with parts `{1: 5MB, 2: 5MB}` is deleted with
usage delta -10MB, the upload without parts with delta 0. -/
theorem deleteMultipart_usage_delta_witness :
    AllSucceed (exec (DeleteMultipart okClient sampleMultipart) 0).2 ∧
    (exec (DeleteMultipart okClient sampleMultipart) 0).1 = none ∧
    calls (exec (DeleteMultipart okClient sampleMultipart) 0).2 =
      [Call.NewTrans 7, Call.DeleteMultipart sampleMultipart 7,
       Call.UpdateUsage "b1" (-(10 * 1024 * 1024)) 7, Call.CommitTrans 7] ∧
    calls (exec (DeleteMultipart okClient emptyMultipart) 0).2 =
      [Call.NewTrans 7, Call.DeleteMultipart emptyMultipart 7,
       Call.UpdateUsage "b1" 0 7, Call.CommitTrans 7] :=
  ⟨by decide, (deleteMultipart_usage_delta okClient sampleMultipart 0 (by decide)).1,
   by decide, by decide⟩

/-! ### `Meta.PutObject` -/

/-- C9 as stated fails: on a bucket with versioning disabled, with no multipart
source (`multipart` is nil) but an object that carries a part map,
`Meta.PutObject` issues the assembly variant `PutObject`, not a direct put. -/
theorem putObject_nil_multipart_assembly_counterexample :
    insertContext.BucketInfo = some ⟨"b1", Versioning.VersionDisabled⟩ ∧
    (none : Option Multipart) = none ∧
    calls (exec (PutObject okClient insertContext assembledObject none true) 0).2 =
      [Call.PutObject assembledObject none true] ∧
    (calls (exec (PutObject okClient insertContext assembledObject none true) 0).2).all
      Call.isDirectPut = false := by
  decide

/-- C9, amended. On a bucket whose versioning mode is Disabled or Suspended,
`Meta.PutObject` issues exactly one backend call and returns its error.  The
call is one of the four unversioned writes on `object`; it is an update
exactly when the request context carries a prior object row, and it is a
direct-put variant exactly when `multipart` is nil and `object.Parts` is nil. -/
theorem putObject_unversioned_dispatch {σ : Type} (c : Client σ) (s : σ)
    (reqCtx : RequestContext) (object : Object) (multipart : Option Multipart)
    (updateUsage : Bool) (bucket : Bucket) (hb : reqCtx.BucketInfo = some bucket)
    (hv : bucket.Versioning = Versioning.VersionDisabled ∨
      bucket.Versioning = Versioning.VersionSuspended) :
    ∃ call,
      (exec (PutObject c reqCtx object multipart updateUsage) s).2 =
        [⟨call, (exec (PutObject c reqCtx object multipart updateUsage) s).1⟩] ∧
      (call = Call.UpdateObjectWithoutMultiPart object ∨
        call = Call.PutObjectWithoutMultiPart object ∨
        call = Call.UpdateObject object multipart updateUsage ∨
        call = Call.PutObject object multipart updateUsage) ∧
      (call.isUpdate = true ↔ reqCtx.ObjectInfo ≠ none) ∧
      (call.isDirectPut = true ↔ (multipart = none ∧ object.Parts = none)) := by
  have key : ∃ call,
      (exec (PutObject.disabled c reqCtx object multipart updateUsage) s).2 =
        [⟨call, (exec (PutObject.disabled c reqCtx object multipart updateUsage) s).1⟩] ∧
      (call = Call.UpdateObjectWithoutMultiPart object ∨
        call = Call.PutObjectWithoutMultiPart object ∨
        call = Call.UpdateObject object multipart updateUsage ∨
        call = Call.PutObject object multipart updateUsage) ∧
      (call.isUpdate = true ↔ reqCtx.ObjectInfo ≠ none) ∧
      (call.isDirectPut = true ↔ (multipart = none ∧ object.Parts = none)) := by
    cases hO : reqCtx.ObjectInfo <;> cases hM : multipart <;> cases hP : object.Parts <;>
      simp [exec, PutObject.disabled, invoke, hO, hM, hP, Call.isUpdate, Call.isDirectPut]
  rcases hv with hv | hv
  · simpa only [exec, PutObject, hb, hv] using key
  · simpa only [exec, PutObject, hb, hv] using key

/-- Witness for C9, amended: with no prior row, no multipart source and no part
map, the one call is the direct insert `PutObjectWithoutMultiPart`. -/
theorem putObject_unversioned_dispatch_witness :
    insertContext.BucketInfo = some ⟨"b1", Versioning.VersionDisabled⟩ ∧
    (∃ call,
      (exec (PutObject okClient insertContext sampleObject none true) 0).2 =
        [⟨call, (exec (PutObject okClient insertContext sampleObject none true) 0).1⟩] ∧
      (call = Call.UpdateObjectWithoutMultiPart sampleObject ∨
        call = Call.PutObjectWithoutMultiPart sampleObject ∨
        call = Call.UpdateObject sampleObject none true ∨
        call = Call.PutObject sampleObject none true) ∧
      (call.isUpdate = true ↔ insertContext.ObjectInfo ≠ none) ∧
      (call.isDirectPut = true ↔ ((none : Option Multipart) = none ∧
        sampleObject.Parts = none))) ∧
    calls (exec (PutObject okClient insertContext sampleObject none true) 0).2 =
      [Call.PutObjectWithoutMultiPart sampleObject] :=
  ⟨rfl,
   putObject_unversioned_dispatch okClient 0 insertContext sampleObject none true
     ⟨"b1", Versioning.VersionDisabled⟩ rfl (Or.inl rfl),
   by decide⟩

/-! ### QoS admission checks -/

/-- The rate computed by the admission checks, `qps := limit; if qps <= 0 { qps =
default }` on the zero value for an absent tenant, is the spec's rate rule. -/
theorem rate_eq_effectiveRate (limits : List (String × UserQos)) (userID : String)
    (field : UserQos → Int) (dflt : Int) (hzero : field UserQos.zero = 0) :
    (if field ((limits.lookup userID).getD UserQos.zero) ≤ 0 then dflt
      else field ((limits.lookup userID).getD UserQos.zero)) =
      effectiveRate ((limits.lookup userID).map field) dflt := by
  cases h : limits.lookup userID with
  | none => simp [effectiveRate, hzero]
  | some q =>
    simp only [Option.getD_some, Option.map_some', effectiveRate]
    by_cases hq : field q ≤ 0
    · simp [hq, not_lt.2 hq]
    · simp [hq, not_le.1 hq]

/-- C10. For every bucket name, snapshot, limiter and limiter state,
`AllowReadQuery` queries the limiter exactly once, under the key
`"user_rqps_" + tenant id`, at the per-second rate that is the tenant's
configured `ReadQps` when it is positive and 2000 otherwise (tenant without
limits, or a zero or negative limit); it answers true when the limiter returns
an error and the limiter's `Allowed` verdict otherwise.  `AllowWriteQuery` does
the same with `"user_wqps_"`, `WriteQps` and 1000. -/
theorem allowQuery_rate_and_fail_open {ρ : Type} (m : QosMeta) (rateLimiter : Limiter ρ)
    (bucketName : String) (r : ρ) :
    ((AllowReadQuery m rateLimiter bucketName r).queries =
        [("user_rqps_" ++ tenantOf m bucketName,
          Limit.PerSecond (effectiveRate
            ((m.userQosLimit.lookup (tenantOf m bucketName)).map UserQos.ReadQps) 2000))] ∧
      (AllowReadQuery m rateLimiter bucketName r).allow =
        failOpen (rateLimiter.Allow ("user_rqps_" ++ tenantOf m bucketName)
          (Limit.PerSecond (effectiveRate
            ((m.userQosLimit.lookup (tenantOf m bucketName)).map UserQos.ReadQps) 2000)) r).1) ∧
    ((AllowWriteQuery m rateLimiter bucketName r).queries =
        [("user_wqps_" ++ tenantOf m bucketName,
          Limit.PerSecond (effectiveRate
            ((m.userQosLimit.lookup (tenantOf m bucketName)).map UserQos.WriteQps) 1000))] ∧
      (AllowWriteQuery m rateLimiter bucketName r).allow =
        failOpen (rateLimiter.Allow ("user_wqps_" ++ tenantOf m bucketName)
          (Limit.PerSecond (effectiveRate
            ((m.userQosLimit.lookup (tenantOf m bucketName)).map UserQos.WriteQps) 1000)) r).1) := by
  have hr := rate_eq_effectiveRate m.userQosLimit (tenantOf m bucketName) UserQos.ReadQps
    defaultReadQps rfl
  have hw := rate_eq_effectiveRate m.userQosLimit (tenantOf m bucketName) UserQos.WriteQps
    defaultWriteQps rfl
  unfold tenantOf at hr hw
  simp only [defaultReadQps] at hr
  simp only [defaultWriteQps] at hw
  constructor
  · simp only [AllowReadQuery, tenantOf, defaultReadQps, hr, failOpen]
    rcases hA : rateLimiter.Allow ("user_rqps_" ++ (m.bucketUser.lookup bucketName).getD "")
      (Limit.PerSecond (effectiveRate
        ((m.userQosLimit.lookup ((m.bucketUser.lookup bucketName).getD "")).map
          UserQos.ReadQps) 2000)) r with ⟨⟨allowed, err⟩, r1⟩
    cases err <;> simp
  · simp only [AllowWriteQuery, tenantOf, defaultWriteQps, hw, failOpen]
    rcases hA : rateLimiter.Allow ("user_wqps_" ++ (m.bucketUser.lookup bucketName).getD "")
      (Limit.PerSecond (effectiveRate
        ((m.userQosLimit.lookup ((m.bucketUser.lookup bucketName).getD "")).map
          UserQos.WriteQps) 1000)) r with ⟨⟨allowed, err⟩, r1⟩
    cases err <;> simp

/-- Examples for C10: tenant `u1` (read limit 5, write limit unset) and the
unknown bucket `b9`, against a limiter that is down and one that denies. -/
theorem allowQuery_examples :
    (AllowReadQuery sampleQos downLimiter "b1" 0).queries =
      [("user_rqps_u1", Limit.PerSecond 5)] ∧
    (AllowReadQuery sampleQos downLimiter "b1" 0).allow = true ∧
    (AllowReadQuery sampleQos denyLimiter "b1" 0).allow = false ∧
    (AllowWriteQuery sampleQos denyLimiter "b1" 0).queries =
      [("user_wqps_u1", Limit.PerSecond 1000)] ∧
    (AllowReadQuery sampleQos denyLimiter "b2" 0).queries =
      [("user_rqps_u2", Limit.PerSecond 2000)] ∧
    (AllowReadQuery sampleQos denyLimiter "b9" 0).queries =
      [("user_rqps_", Limit.PerSecond 2000)] := by
  decide

/-- For every backend: when the `AddDeleteMarker` of `Meta.DeleteSuspendedObject`
fails, `CommitTrans` is nevertheless called on the transaction, and the marker
error is what the caller gets. -/
theorem deleteSuspendedObject_failed_marker_commits {σ : Type} (c : Client σ)
    (NullVersion : String) (object : Object) (s : σ) (tx : Tx) (e : GoError)
    (h : (⟨Call.AddDeleteMarker object NullVersion tx, some e⟩ : Event) ∈
      (exec (DeleteSuspendedObject c NullVersion object) s).2) :
    Call.CommitTrans tx ∈ calls (exec (DeleteSuspendedObject c NullVersion object) s).2 ∧
    (exec (DeleteSuspendedObject c NullVersion object) s).1 = some e := by
  revert h
  simp only [exec, calls, DeleteSuspendedObject, newTrans, DeleteSuspendedObject.body, invoke,
    deferCommitOrAbort]
  rcases hN : c.NewTrans s with ⟨⟨tx0, e0⟩, s1⟩
  cases hdm : object.DeleteMarker
  · rcases hD : c.DeleteObject object tx0 s1 with ⟨e1, s2⟩
    rcases hG : c.PutObjectToGarbageCollection object tx0 s2 with ⟨e2, s3⟩
    rcases hU : c.UpdateUsage object.BucketName (neg64 object.Size) tx0 s3 with ⟨e3, s4⟩
    rcases hA : c.AddDeleteMarker object NullVersion tx0 s4 with ⟨e4, s5⟩
    rcases hC : c.CommitTrans tx0 s5 with ⟨e5, s6⟩
    cases e0 <;> cases e1 <;> cases e2 <;> cases e3 <;> cases e4 <;> cases e5 <;>
      simp +contextual [hD, hG, hU, hA, hC]
  · rcases hA : c.AddDeleteMarker object NullVersion tx0 s1 with ⟨e1, s2⟩
    rcases hC : c.CommitTrans tx0 s2 with ⟨e2, s3⟩
    cases e0 <;> cases e1 <;> cases e2 <;> simp +contextual [hA, hC]

/-- For every backend: when the `CommitTrans` of `Meta.DeleteSuspendedObject`
fails, the caller gets the result of `AddDeleteMarker`, which is recorded in
the trace just before the commit, and not the commit error. -/
theorem deleteSuspendedObject_failed_commit_result {σ : Type} (c : Client σ)
    (NullVersion : String) (object : Object) (s : σ) (tx : Tx) (e : GoError)
    (h : (⟨Call.CommitTrans tx, some e⟩ : Event) ∈
      (exec (DeleteSuspendedObject c NullVersion object) s).2) :
    (⟨Call.AddDeleteMarker object NullVersion tx,
        (exec (DeleteSuspendedObject c NullVersion object) s).1⟩ : Event) ∈
      (exec (DeleteSuspendedObject c NullVersion object) s).2 := by
  revert h
  simp only [exec, DeleteSuspendedObject, newTrans, DeleteSuspendedObject.body, invoke,
    deferCommitOrAbort]
  rcases hN : c.NewTrans s with ⟨⟨tx0, e0⟩, s1⟩
  cases hdm : object.DeleteMarker
  · rcases hD : c.DeleteObject object tx0 s1 with ⟨e1, s2⟩
    rcases hG : c.PutObjectToGarbageCollection object tx0 s2 with ⟨e2, s3⟩
    rcases hU : c.UpdateUsage object.BucketName (neg64 object.Size) tx0 s3 with ⟨e3, s4⟩
    rcases hA : c.AddDeleteMarker object NullVersion tx0 s4 with ⟨e4, s5⟩
    rcases hC : c.CommitTrans tx0 s5 with ⟨e5, s6⟩
    cases e0 <;> cases e1 <;> cases e2 <;> cases e3 <;> cases e4 <;> cases e5 <;>
      simp +contextual [hD, hG, hU, hA, hC]
  · rcases hA : c.AddDeleteMarker object NullVersion tx0 s1 with ⟨e1, s2⟩
    rcases hC : c.CommitTrans tx0 s2 with ⟨e2, s3⟩
    cases e0 <;> cases e1 <;> cases e2 <;> simp +contextual [hA, hC]

/-! ### TiKV transactions -/

/-- C11 (the code at the failing inputs). `TxPut` on two pairs, with a backend
whose second `tx.Set` fails: `Commit` is called and succeeds, `Rollback` is
not called, so the first `Set` is applied, and the `Set` error is returned.
`TxPut` with a backend whose `Commit` fails after both `Set`s succeeded: the
transaction is rolled back and nil is returned.  `TxDelete` on two keys, with
a backend whose second `tx.Delete` fails: `Commit` is called and succeeds. -/
theorem txPut_txDelete_commit_after_failure :
    kvExec (TxPut (scriptTxn [none, none, some setFailed]) packByte [([1], 10), ([2], 20)]) 0 =
      (some setFailed,
       [⟨KvCall.Begin, none⟩, ⟨KvCall.Set [1] [10], none⟩,
        ⟨KvCall.Set [2] [20], some setFailed⟩, ⟨KvCall.Commit, none⟩]) ∧
    kvExec (TxPut (scriptTxn [none, none, none, some kvCommitFailed]) packByte
        [([1], 10), ([2], 20)]) 0 =
      (none,
       [⟨KvCall.Begin, none⟩, ⟨KvCall.Set [1] [10], none⟩, ⟨KvCall.Set [2] [20], none⟩,
        ⟨KvCall.Commit, some kvCommitFailed⟩, ⟨KvCall.Rollback, none⟩]) ∧
    kvExec (TxDelete (scriptTxn [none, none, some deleteFailed]) [[1], [2]]) 0 =
      (some deleteFailed,
       [⟨KvCall.Begin, none⟩, ⟨KvCall.Delete [1], none⟩,
        ⟨KvCall.Delete [2], some deleteFailed⟩, ⟨KvCall.Commit, none⟩]) := by
  decide

/-- Run on a nil `err`, the deferred closure of `TxPut` and `TxDelete` calls `Commit`. -/
theorem kvDefer_none_commits {σ : Type} (c : TxnClient σ) (w : KvWorld σ) :
    ∃ r, (⟨KvCall.Commit, r⟩ : KvEvent) ∈ (kvDefer c none w).trace := by
  simp only [kvDefer, kvInvoke]
  rcases hC : c.Commit w.store with ⟨e, s1⟩
  cases e with
  | none => exact ⟨none, by simp⟩
  | some e1 => exact ⟨some e1, by simp⟩

/-- For every backend, marshaller and argument list: once `Begin` succeeded,
`TxPut` and `TxDelete` call `Commit`, whatever happened in the loop. -/
theorem txPut_txDelete_always_commit {σ V : Type} (c : TxnClient σ)
    (marshal : V → Except GoError (List Nat)) (args : List (List Nat × V))
    (keys : List (List Nat)) (s : σ) (hbegin : (c.Begin s).1 = none) :
    (∃ r, (⟨KvCall.Commit, r⟩ : KvEvent) ∈ (kvExec (TxPut c marshal args) s).2) ∧
    (∃ r, (⟨KvCall.Commit, r⟩ : KvEvent) ∈ (kvExec (TxDelete c keys) s).2) := by
  constructor
  · simp only [kvExec, TxPut, kvInvoke, hbegin]
    exact kvDefer_none_commits c _
  · simp only [kvExec, TxDelete, kvInvoke, hbegin]
    exact kvDefer_none_commits c _

/-! ### Bucket names, key layout and cache keys -/

/-- Unfolding of the remainders of a concatenation. -/
theorem rems_seq (a b : Regex) (s : List Char) :
    (Regex.seq a b).rems s = (a.rems s).flatMap b.rems := by
  rw [Regex.rems]

/-- Unfolding of the remainders of a bounded repetition. -/
theorem rems_rep_some (a : Regex) (lo k : Nat) (s : List Char) :
    (Regex.rep a lo (some k)).rems s = (iterate a.rems lo s).flatMap (upTo a.rems k) := by
  rw [Regex.rems]

/-- Unfolding of the remainders of an unbounded repetition. -/
theorem rems_rep_none (a : Regex) (lo : Nat) (s : List Char) :
    (Regex.rep a lo none).rems s =
      (iterate a.rems lo s).flatMap (fun t => upTo a.rems t.length t) := by
  rw [Regex.rems]

/-- A character class consumes one rune that it accepts. -/
theorem mem_rems_cls (f : Char → Bool) (s t : List Char) :
    t ∈ (Regex.cls f).rems s ↔ ∃ c, s = c :: t ∧ f c = true := by
  cases s with
  | nil => simp [Regex.rems]
  | cons c u =>
    by_cases h : f c = true
    · simp only [Regex.rems, h, if_true, List.mem_singleton]
      constructor
      · rintro rfl
        exact ⟨c, rfl, h⟩
      · rintro ⟨c', hc, -⟩
        simp only [List.cons.injEq] at hc
        exact hc.2.symm
    · simp only [Regex.rems, h, Bool.false_eq_true, if_false, List.not_mem_nil, false_iff]
      rintro ⟨c', hc, hf⟩
      simp only [List.cons.injEq] at hc
      exact h (hc.1 ▸ hf)

/-- A character class applied exactly `n` times consumes `n` accepted runes. -/
theorem mem_iterate_cls (f : Char → Bool) (n : Nat) (s t : List Char) :
    t ∈ iterate (Regex.cls f).rems n s ↔
      ∃ p, s = p ++ t ∧ p.length = n ∧ ∀ c ∈ p, f c = true := by
  induction n generalizing s with
  | zero =>
    simp only [iterate, List.mem_singleton]
    constructor
    · rintro rfl
      exact ⟨[], rfl, rfl, by simp⟩
    · rintro ⟨p, hs, hl, -⟩
      rw [List.length_eq_zero] at hl
      subst hl
      exact hs.symm
  | succ n ih =>
    simp only [iterate, List.mem_flatMap, mem_rems_cls, ih]
    constructor
    · rintro ⟨u, ⟨c, rfl, hc⟩, p, rfl, hl, hp⟩
      exact ⟨c :: p, rfl, by simp [hl], by simpa [hc] using hp⟩
    · rintro ⟨p, rfl, hl, hp⟩
      cases p with
      | nil => simp at hl
      | cons c p =>
        refine ⟨p ++ t, ⟨c, rfl, hp c (List.mem_cons_self _ _)⟩, p, rfl, by simpa using hl, ?_⟩
        intro x hx
        exact hp x (List.mem_cons_of_mem _ hx)

/-- A character class applied at most `n` times consumes at most `n` accepted runes. -/
theorem mem_upTo_cls (f : Char → Bool) (n : Nat) (s t : List Char) :
    t ∈ upTo (Regex.cls f).rems n s ↔
      ∃ p, s = p ++ t ∧ p.length ≤ n ∧ ∀ c ∈ p, f c = true := by
  induction n generalizing s with
  | zero =>
    simp only [upTo, List.mem_singleton]
    constructor
    · rintro rfl
      exact ⟨[], rfl, le_refl _, by simp⟩
    · rintro ⟨p, hs, hl, -⟩
      have : p = [] := List.length_eq_zero.1 (Nat.le_zero.1 hl)
      subst this
      exact hs.symm
  | succ n ih =>
    simp only [upTo, List.mem_cons, List.mem_flatMap, mem_rems_cls, ih]
    constructor
    · rintro (rfl | ⟨u, ⟨c, rfl, hc⟩, p, rfl, hl, hp⟩)
      · exact ⟨[], rfl, Nat.zero_le _, by simp⟩
      · exact ⟨c :: p, rfl, by simpa using hl, by simpa [hc] using hp⟩
    · rintro ⟨p, rfl, hl, hp⟩
      cases p with
      | nil => exact Or.inl rfl
      | cons c p =>
        refine Or.inr ⟨p ++ t, ⟨c, rfl, hp c (List.mem_cons_self _ _)⟩, p, rfl,
          by simpa using hl, ?_⟩
        intro x hx
        exact hp x (List.mem_cons_of_mem _ hx)

/-- The repetition `[class]{lo,lo+k}` consumes between `lo` and `lo + k` accepted runes. -/
theorem mem_rems_rep_cls_bounded (f : Char → Bool) (lo k : Nat) (s t : List Char) :
    t ∈ (Regex.rep (Regex.cls f) lo (some k)).rems s ↔
      ∃ p, s = p ++ t ∧ lo ≤ p.length ∧ p.length ≤ lo + k ∧ ∀ c ∈ p, f c = true := by
  rw [rems_rep_some]
  simp only [List.mem_flatMap, mem_iterate_cls, mem_upTo_cls]
  constructor
  · rintro ⟨u, ⟨p, rfl, hl, hp⟩, q, rfl, hq, hq2⟩
    refine ⟨p ++ q, by simp, by simp [hl], by simp [hl, hq], ?_⟩
    intro c hc
    rcases List.mem_append.1 hc with h | h
    · exact hp c h
    · exact hq2 c h
  · rintro ⟨p, rfl, h1, h2, hp⟩
    refine ⟨p.drop lo ++ t, ⟨p.take lo, ?_, ?_, ?_⟩, p.drop lo, rfl, ?_, ?_⟩
    · rw [← List.append_assoc, List.take_append_drop]
    · simp [h1]
    · intro c hc
      exact hp c (List.mem_of_mem_take hc)
    · simp only [List.length_drop]
      omega
    · intro c hc
      exact hp c (List.mem_of_mem_drop hc)

/-- The repetition `[class]{lo,}` consumes at least `lo` accepted runes. -/
theorem mem_rems_rep_cls_unbounded (f : Char → Bool) (lo : Nat) (s t : List Char) :
    t ∈ (Regex.rep (Regex.cls f) lo none).rems s ↔
      ∃ p, s = p ++ t ∧ lo ≤ p.length ∧ ∀ c ∈ p, f c = true := by
  rw [rems_rep_none]
  simp only [List.mem_flatMap, mem_iterate_cls, mem_upTo_cls]
  constructor
  · rintro ⟨u, ⟨p, rfl, hl, hp⟩, q, rfl, -, hq2⟩
    refine ⟨p ++ q, by simp, by simp [hl], ?_⟩
    intro c hc
    rcases List.mem_append.1 hc with h | h
    · exact hp c h
    · exact hq2 c h
  · rintro ⟨p, rfl, h1, hp⟩
    refine ⟨p.drop lo ++ t, ⟨p.take lo, ?_, ?_, ?_⟩, p.drop lo, rfl, ?_, ?_⟩
    · rw [← List.append_assoc, List.take_append_drop]
    · simp [h1]
    · intro c hc
      exact hp c (List.mem_of_mem_take hc)
    · simp
    · intro c hc
      exact hp c (List.mem_of_mem_drop hc)

/-- A pattern matches the whole string when the empty remainder is reachable. -/
theorem matchString_iff (r : Regex) (s : String) :
    r.MatchString s = true ↔ [] ∈ r.rems s.data := by
  simp only [Regex.MatchString, List.any_eq_true, List.isEmpty_iff]
  constructor
  · rintro ⟨x, hx, rfl⟩
    exact hx
  · intro h
    exact ⟨[], h, rfl⟩

/-- The escaped dot accepts the dot alone. -/
theorem isDot_iff (c : Char) : isDot c = true ↔ c = '.' := by
  simp [isDot]

/-- The group `\d+\.` consumes a non-empty run of digits and a dot. -/
theorem mem_rems_digits_dot (s t : List Char) :
    t ∈ (Regex.seq (Regex.rep (Regex.cls isDigit) 1 none) (Regex.cls isDot)).rems s ↔
      ∃ a, DigitRun a ∧ s = a ++ '.' :: t := by
  rw [rems_seq]
  simp only [List.mem_flatMap, mem_rems_rep_cls_unbounded, mem_rems_cls, isDot_iff]
  constructor
  · rintro ⟨u, ⟨p, rfl, hl, hp⟩, c, rfl, rfl⟩
    refine ⟨p, ⟨?_, hp⟩, rfl⟩
    intro h
    subst h
    simp at hl
  · rintro ⟨a, ⟨hne, hd⟩, rfl⟩
    refine ⟨'.' :: t, ⟨a, rfl, ?_, hd⟩, '.', rfl, rfl⟩
    cases a with
    | nil => exact absurd rfl hne
    | cons x xs => simp

/-- The pattern `ipAddress` matches exactly the dotted quads. -/
theorem ipAddress_matchString_iff (s : String) :
    ipAddress.MatchString s = true ↔ IsDottedQuad s.data := by
  rw [matchString_iff, ipAddress, rems_seq]
  simp only [List.mem_flatMap, rems_rep_some, iterate, upTo, List.mem_singleton,
    mem_rems_digits_dot, mem_rems_rep_cls_unbounded]
  constructor
  · rintro ⟨u, ⟨v, ⟨u1, ⟨a, ha, hs⟩, u2, ⟨b, hb, rfl⟩, u3, ⟨c, hc, rfl⟩, rfl⟩, rfl⟩, d, hd, hl, hdd⟩
    simp only [List.append_nil] at hd
    rw [hd] at hs
    refine ⟨a, b, c, d, ha, hb, hc, ⟨?_, hdd⟩, hs⟩
    intro h
    rw [h] at hl
    simp at hl
  · rintro ⟨a, b, c, d, ha, hb, hc, ⟨hne, hdd⟩, hs⟩
    refine ⟨d, ⟨d, ⟨b ++ '.' :: (c ++ '.' :: d), ⟨a, ha, hs⟩, c ++ '.' :: d, ⟨b, hb, rfl⟩,
      d, ⟨c, hc, rfl⟩, rfl⟩, rfl⟩, d, by simp, ?_, hdd⟩
    cases d with
    | nil => exact absurd rfl hne
    | cons x xs => simp

/-- The pattern `validBucketName` matches exactly the names made of a letter or
digit, 1 to 61 runes of the bucket class, and a letter or digit. -/
theorem validBucketName_matchString_iff (s : String) :
    validBucketName.MatchString s = true ↔
      ∃ c1 mid c2, s.data = c1 :: (mid ++ [c2]) ∧ isAlnum c1 = true ∧ isAlnum c2 = true ∧
        1 ≤ mid.length ∧ mid.length ≤ 61 ∧ ∀ c ∈ mid, isBucketChar c = true := by
  rw [matchString_iff, validBucketName, rems_seq]
  simp only [List.mem_flatMap, rems_seq, mem_rems_cls, mem_rems_rep_cls_bounded]
  constructor
  · rintro ⟨u, ⟨c1, hs, h1⟩, v, ⟨mid, rfl, hlo, hhi, hmid⟩, c2, rfl, h2⟩
    exact ⟨c1, mid, c2, hs, h1, h2, hlo, by omega, hmid⟩
  · rintro ⟨c1, mid, c2, hs, h1, h2, hlo, hhi, hmid⟩
    exact ⟨mid ++ [c2], ⟨c1, hs, h1⟩, [c2], ⟨mid, rfl, hlo, by omega, hmid⟩, c2, rfl, h2⟩

/-- Letters and digits of the class `[A-Za-z0-9]` are ASCII. -/
theorem isAlnum_lt (c : Char) (h : isAlnum c = true) : c.toNat < 128 := by
  simp only [isAlnum, inRange, Bool.or_eq_true, Bool.and_eq_true, decide_eq_true_eq] at h
  have hZ : 'Z'.toNat = 90 := rfl
  have hz : 'z'.toNat = 122 := rfl
  have h9 : '9'.toNat = 57 := rfl
  omega

/-- The runes of the bucket class are ASCII. -/
theorem isBucketChar_lt (c : Char) (h : isBucketChar c = true) : c.toNat < 128 := by
  simp only [isBucketChar, Bool.or_eq_true, beq_iff_eq] at h
  rcases h with (((h | h) | h) | h) | h
  · exact isAlnum_lt c h
  all_goals subst h; decide

/-- No letter or digit is white space. -/
theorem isSpace_not_alnum (c : Char) (h : isAlnum c = true) : isSpace c = false := by
  simp only [isAlnum, inRange, Bool.or_eq_true, Bool.and_eq_true, decide_eq_true_eq] at h
  have hA : 'A'.toNat = 65 := rfl
  have hZ : 'Z'.toNat = 90 := rfl
  have ha : 'a'.toNat = 97 := rfl
  have hz : 'z'.toNat = 122 := rfl
  have h0 : '0'.toNat = 48 := rfl
  have h9 : '9'.toNat = 57 := rfl
  rw [hA, hZ, ha, hz, h0, h9] at h
  simp only [isSpace, Bool.or_eq_false_iff, Bool.and_eq_false_imp, decide_eq_true_eq,
    decide_eq_false_iff_not, beq_eq_false_iff_ne, ne_eq]
  omega

/-- An ASCII string has as many bytes as runes. -/
theorem length_flatMap_encodeRune (l : List Char) (h : ∀ c ∈ l, c.toNat < 128) :
    (l.flatMap encodeRune).length = l.length := by
  induction l with
  | nil => rfl
  | cons c t ih =>
    have hc := h c (List.mem_cons_self _ _)
    simp only [List.flatMap_cons, List.length_append, List.length_cons]
    rw [ih (fun x hx => h x (List.mem_cons_of_mem _ hx))]
    simp [encodeRune, hc]
    omega

/-- The scan `containsDotDot` finds exactly the occurrences of `..` as a substring. -/
theorem containsDotDot_iff (cs : List Char) :
    containsDotDot cs = true ↔ ['.', '.'] <:+: cs := by
  induction cs with
  | nil => simp [containsDotDot]
  | cons c1 t ih =>
    cases t with
    | nil =>
      simp only [containsDotDot, Bool.false_eq_true, false_iff]
      rintro ⟨p, q, h⟩
      have := congrArg List.length h
      simp at this
      omega
    | cons c2 t =>
      simp only [containsDotDot, Bool.or_eq_true, Bool.and_eq_true, beq_iff_eq, ih]
      constructor
      · rintro (⟨rfl, rfl⟩ | h)
        · exact ⟨[], t, rfl⟩
        · obtain ⟨p, q, h⟩ := h
          exact ⟨c1 :: p, q, by simp [← h]⟩
      · rintro ⟨p, q, h⟩
        cases p with
        | nil =>
          simp only [List.nil_append, List.cons_append, List.cons.injEq] at h
          exact Or.inl ⟨h.1.symm, h.2.1.symm⟩
        | cons x p =>
          simp only [List.cons_append, List.cons.injEq] at h
          exact Or.inr ⟨p, q, by simpa using h.2⟩

/-- C12. For every string `s`, `CheckValidBucketName(s)` returns nil if and only if
`s` is 3 to 63 bytes long, its first and last characters are ASCII letters or
digits, every character in between is an ASCII letter, a digit or one of `.`,
`-`, `_`, `:`, `s` does not contain `..`, and `s` is not of the dotted-quad
form `digits.digits.digits.digits`; it returns an error in every other case. -/
theorem checkValidBucketName_none_iff (s : String) :
    CheckValidBucketName s = none ↔
      (3 ≤ goLen s ∧ goLen s ≤ 63 ∧
        (∃ c, s.data.head? = some c ∧ isAlnum c = true) ∧
        (∃ c, s.data.getLast? = some c ∧ isAlnum c = true) ∧
        (∀ c ∈ s.data.tail.dropLast, isBucketChar c = true) ∧
        ¬ ['.', '.'] <:+: s.data ∧
        ¬ IsDottedQuad s.data) := by
  have hcode : CheckValidBucketName s = none ↔
      (s.data.all isSpace = false ∧ 3 ≤ goLen s ∧ goLen s ≤ 63 ∧
        ipAddress.MatchString s = false ∧ containsDotDot s.data = false ∧
        validBucketName.MatchString s = true) := by
    unfold CheckValidBucketName checkBucketNameCommon
    split_ifs <;> simp_all
  rw [hcode]
  have hip : ipAddress.MatchString s = false ↔ ¬ IsDottedQuad s.data := by
    rw [← ipAddress_matchString_iff]
    simp
  have hdd : containsDotDot s.data = false ↔ ¬ ['.', '.'] <:+: s.data := by
    rw [← containsDotDot_iff]
    simp
  rw [hip, hdd, validBucketName_matchString_iff]
  constructor
  · rintro ⟨-, hlo, hhi, hq, hd, c1, mid, c2, hs, h1, h2, -, -, hmid⟩
    refine ⟨hlo, hhi, ⟨c1, by simp [hs], h1⟩, ⟨c2, ?_, h2⟩, ?_, hd, hq⟩
    · rw [hs, ← List.cons_append, List.getLast?_append]
      simp
    · rw [hs]
      simpa using hmid
  · rintro ⟨hlo, hhi, ⟨c1, hc1, h1⟩, ⟨c2, hc2, h2⟩, hmid, hd, hq⟩
    cases hdata : s.data with
    | nil => simp [hdata] at hc1
    | cons x rest =>
      rw [hdata] at hc1 hc2 hmid
      simp only [List.head?_cons, Option.some.injEq] at hc1
      subst hc1
      rcases List.eq_nil_or_concat rest with hr | ⟨mid, y, hr⟩
      all_goals try rw [List.concat_eq_append] at hr
      · -- a one-character name has one byte
        exfalso
        subst hr
        have : goLen s = 1 := by
          unfold goLen goBytes
          rw [hdata, length_flatMap_encodeRune]
          · rfl
          · intro c hc
            simp only [List.mem_singleton] at hc
            exact hc ▸ isAlnum_lt _ h1
        omega
      · subst hr
        have hy : y = c2 := by
          rw [← List.cons_append, List.getLast?_append] at hc2
          simpa using hc2
        subst hy
        simp only [List.tail_cons, List.dropLast_concat] at hmid
        have hascii : ∀ c ∈ x :: (mid ++ [y]), c.toNat < 128 := by
          intro c hc
          simp only [List.mem_cons, List.mem_append, List.mem_singleton] at hc
          rcases hc with rfl | hc | hc
          · exact isAlnum_lt _ h1
          · exact isBucketChar_lt _ (hmid c hc)
          · simp only [List.not_mem_nil, or_false] at hc
            exact hc ▸ isAlnum_lt _ h2
        have hlen : goLen s = mid.length + 2 := by
          unfold goLen goBytes
          rw [hdata, length_flatMap_encodeRune _ hascii]
          simp
        rw [hdata] at hq hd
        refine ⟨?_, hlo, hhi, hq, hd, x, mid, y, rfl, h1, h2, by omega, by omega, hmid⟩
        simp only [List.all_cons, Bool.and_eq_false_imp]
        intro hsp
        rw [isSpace_not_alnum x h1] at hsp
        exact absurd hsp (by simp)

/-- C13 (the code at the failing input). `TableMaxKeySuffix`, the Go conversion
`string(0xFF)`, is the rune U+00FF, whose bytes are `C3 BF`, not the byte
`FF`.  With the object-part prefix `p` and the valid UTF-8 name `中` (bytes
`E4 B8 AD`), the key `p+name` does not sort below `p+TableMaxKeySuffix`: it
sorts above it.  The six table prefixes are pairwise distinct. -/
theorem tableMaxKeySuffix_not_upper_bound :
    goBytes TableMaxKeySuffix = [0xC3, 0xBF] ∧
    goBytes (TableObjectPartPrefix ++ "中") = [0x70, 0xE4, 0xB8, 0xAD] ∧
    goBytes (TableObjectPartPrefix ++ TableMaxKeySuffix) = [0x70, 0xC3, 0xBF] ∧
    bytesLess (goBytes (TableObjectPartPrefix ++ "中"))
      (goBytes (TableObjectPartPrefix ++ TableMaxKeySuffix)) = false ∧
    bytesLess (goBytes (TableObjectPartPrefix ++ TableMaxKeySuffix))
      (goBytes (TableObjectPartPrefix ++ "中")) = true ∧
    tablePrefixes.Nodup := by
  decide

/-- C14 (the code at the failing inputs). The bucket names `abc` and `abc:d` are
both accepted by `CheckValidBucketName`, yet `Meta.GetVersionedObject` builds
the one cache key `abc:d:e:f` for object `e` of bucket `abc:d` at version `f`
and for object `d:e` of bucket `abc` at version `f`; within bucket `abc`,
object `d:e` at version `f` and object `d` at version `e:f` share a key too.
The key `Meta.GetObject` builds for the unversioned record of an object is the
key `Meta.GetVersionedObject` builds for the same object at the empty version,
which stands for its latest version. -/
theorem cacheKey_collides_on_accepted_buckets :
    CheckValidBucketName "abc" = none ∧ CheckValidBucketName "abc:d" = none ∧
    cacheKey "abc:d" "e" "f" = "abc:d:e:f" ∧
    cacheKey "abc" "d:e" "f" = "abc:d:e:f" ∧
    (("abc:d", "e", "f") : String × String × String) ≠ ("abc", "d:e", "f") ∧
    cacheKey "abc" "d:e" "f" = cacheKey "abc" "d" "e:f" ∧
    (("abc", "d:e", "f") : String × String × String) ≠ ("abc", "d", "e:f") ∧
    objectCacheKey "abc" "k" = cacheKey "abc" "k" "" := by
  decide

/-- Two lists cut at the first occurrence of `a` agree piecewise when they are equal. -/
theorem split_at_first {α : Type} (a : α) :
    ∀ (x₁ x₂ z₁ z₂ : List α), a ∉ x₁ → a ∉ x₂ → x₁ ++ a :: z₁ = x₂ ++ a :: z₂ →
      x₁ = x₂ ∧ z₁ = z₂ := by
  intro x₁
  induction x₁ with
  | nil =>
    intro x₂ z₁ z₂ _ h2 h
    cases x₂ with
    | nil => simpa using h
    | cons y ys =>
      simp only [List.nil_append, List.cons_append, List.cons.injEq] at h
      exact absurd (h.1 ▸ List.mem_cons_self _ _) h2
  | cons y ys ih =>
    intro x₂ z₁ z₂ h1 h2 h
    cases x₂ with
    | nil =>
      simp only [List.nil_append, List.cons_append, List.cons.injEq] at h
      exact absurd (h.1 ▸ List.mem_cons_self _ _) h1
    | cons w ws =>
      simp only [List.cons_append, List.cons.injEq] at h
      obtain ⟨rfl, hrest⟩ := h
      obtain ⟨h3, h4⟩ := ih ws z₁ z₂ (fun hm => h1 (List.mem_cons_of_mem _ hm))
        (fun hm => h2 (List.mem_cons_of_mem _ hm)) hrest
      exact ⟨by rw [h3], h4⟩

/-- Two lists cut at the last occurrence of `a` agree piecewise when they are equal. -/
theorem split_at_last {α : Type} (a : α) (x₁ x₂ z₁ z₂ : List α) (h1 : a ∉ z₁) (h2 : a ∉ z₂)
    (h : x₁ ++ a :: z₁ = x₂ ++ a :: z₂) : x₁ = x₂ ∧ z₁ = z₂ := by
  have hr := congrArg List.reverse h
  simp only [List.reverse_append, List.reverse_cons, List.append_assoc, List.singleton_append]
    at hr
  obtain ⟨h3, h4⟩ := split_at_first a z₁.reverse z₂.reverse x₁.reverse x₂.reverse
    (by simpa using h1) (by simpa using h2) hr
  exact ⟨List.reverse_injective h4, List.reverse_injective h3⟩

/-- How far the cache key does separate its inputs: on triples whose bucket name
and version contain no `:`, with object names arbitrary, equal keys come from
equal triples. -/
theorem cacheKey_injective_without_colon (b₁ o₁ v₁ b₂ o₂ v₂ : String)
    (hb₁ : ':' ∉ b₁.data) (hb₂ : ':' ∉ b₂.data) (hv₁ : ':' ∉ v₁.data) (hv₂ : ':' ∉ v₂.data)
    (h : cacheKey b₁ o₁ v₁ = cacheKey b₂ o₂ v₂) : b₁ = b₂ ∧ o₁ = o₂ ∧ v₁ = v₂ := by
  have hd := congrArg String.data h
  simp only [cacheKey, String.data_append, List.append_assoc] at hd
  simp only [List.singleton_append] at hd
  obtain ⟨hb, hrest⟩ := split_at_first ':' _ _ _ _ hb₁ hb₂ hd
  obtain ⟨ho, hv⟩ := split_at_last ':' _ _ _ _ hv₁ hv₂ hrest
  exact ⟨String.ext hb, String.ext ho, String.ext hv⟩

/-- An instance of the lemma above: object `d:e` at version `f` and object `d` at
version `ef`, both in bucket `abc`, get different cache keys. -/
theorem cacheKey_injective_without_colon_example :
    ':' ∉ ("abc" : String).data ∧ ':' ∉ ("f" : String).data ∧ ':' ∉ ("ef" : String).data ∧
    cacheKey "abc" "d:e" "f" ≠ cacheKey "abc" "d" "ef" :=
  ⟨by decide, by decide, by decide,
   fun h => absurd
     (cacheKey_injective_without_colon "abc" "d:e" "f" "abc" "d" "ef" (by decide) (by decide)
       (by decide) (by decide) h).2.1 (by decide)⟩

/-- A common prefix does not change the order of two byte strings. -/
theorem bytesLess_append_left (l a b : List Nat) :
    bytesLess (l ++ a) (l ++ b) = bytesLess a b := by
  induction l with
  | nil => rfl
  | cons x xs ih => simp [bytesLess, ih]

/-- The bytes of a concatenation are the bytes of its parts. -/
theorem goBytes_append (p q : String) : goBytes (p ++ q) = goBytes p ++ goBytes q := by
  simp [goBytes, List.flatMap_append]

/-- What `TableMaxKeySuffix` does bound: for every prefix `p`, a name whose first
rune is below U+00FF (every ASCII name among them) gives a key `p+name` that
sorts strictly below `p+TableMaxKeySuffix`. -/
theorem tableMaxKeySuffix_bounds_names_below_ff (p n : String) (c : Char) (rest : List Char)
    (hn : n.data = c :: rest) (hc : c.toNat < 0xFF) :
    bytesLess (goBytes (p ++ n)) (goBytes (p ++ TableMaxKeySuffix)) = true := by
  rw [goBytes_append, goBytes_append, bytesLess_append_left]
  have hsuffix : goBytes TableMaxKeySuffix = [0xC3, 0xBF] := by decide
  rw [hsuffix]
  simp only [goBytes, hn, List.flatMap_cons]
  by_cases h1 : c.toNat < 0x80
  · simp only [encodeRune, h1, if_true, List.singleton_append, bytesLess, Bool.or_eq_true,
      decide_eq_true_eq]
    exact Or.inl (by omega)
  · have h2 : c.toNat < 0x800 := by omega
    simp only [encodeRune, h1, h2, if_true, if_false, List.cons_append, List.nil_append]
    cases hrest : rest.flatMap encodeRune with
    | nil =>
      simp only [bytesLess, Bool.or_eq_true, Bool.and_eq_true, decide_eq_true_eq, beq_iff_eq]
      omega
    | cons y ys =>
      simp only [bytesLess, Bool.or_eq_true, Bool.and_eq_true, decide_eq_true_eq, beq_iff_eq]
      omega

end Yig
